import Mathlib

/-!
Flash block cache statistics (`mc_flash_blockcache.cpp`).

A shallow embedding of the statistics and address-validity code of the
simulator's flash block cache, followed by theorems about it.

Conventions of the embedding:

* `uint32_t` / `unsigned` values are natural numbers, and every operation that
  can overflow is reduced with `u32` (that is, modulo `2 ^ 32`).
* `SysTime::Ticks` values are integers.
* `double` values are exact rationals.
* Constants and collaborators declared in headers outside this file
  (`BLOCK_SIZE`, `SysTime::sTicks(1)`, `SvmMemory::flashToVirtAddr`,
  `SvmDebugPipe::formatAddress`) and the library routine `std::partial_sort`
  are fields of `Env`.
* The capacity `arraysize(stats.periodic.blockMissCounts)` is the length of the
  list that holds the histogram.
-/

namespace FlashBlock

/-- Reduction of a natural number to the range of `uint32_t`. -/
def u32 (n : Nat) : Nat := n % 2 ^ 32

/-- The `stats.periodic` sub-structure: the counters of the current interval
and the per-block miss histogram. -/
structure Periodic where
  blockTotal : Nat
  blockHitSame : Nat
  blockHitOther : Nat
  blockMiss : Nat
  blockMissCounts : List Nat
deriving DecidableEq, Repr

/-- The process-wide `FlashBlock::stats` object. -/
structure FlashStats where
  timestamp : Int
  periodic : Periodic
deriving DecidableEq, Repr

/-- Constants and external collaborators used by the statistics code. -/
structure Env where
  /-- The fixed cache block size in bytes. -/
  BLOCK_SIZE : Nat
  /-- The value of `SysTime::sTicks(1)`: the number of ticks in one second. -/
  sTicks1 : Int
  /-- The translation `SvmMemory::flashToVirtAddr`. -/
  flashToVirtAddr : Nat → Nat
  /-- The symboliser `SvmDebugPipe::formatAddress`. -/
  formatAddress : Nat → String
  /-- The routine `std::partial_sort(first, first + k, last, comp)` on a vector
  of `unsigned`, as a function of `comp`, `k` and the vector contents. -/
  partialSort : (Nat → Nat → Bool) → Nat → List Nat → List Nat

/-- Modelled from the spec: the `ASSERT` macro, declared outside the files at
hand, is fatal when its condition fails. The result of a routine that contains
an `ASSERT` is either that it ran to the end, or that the assertion failed, in
which case the state reached at that point is kept. -/
inductive Checked (α : Type) where
  | ok : α → Checked α
  | assertFailed : α → Checked α
deriving DecidableEq, Repr

/-- The predicate `FlashBlock::isAddrValid(pa)`. The pointer width `w`, the
address `memBase` of `&mem[0][0]` and `sizeofMem = sizeof mem` are parameters.
The pointer difference is converted to `uintptr_t`, hence reduced modulo
`2 ^ w`. -/
def isAddrValid (w memBase sizeofMem pa : Nat) : Bool :=
  let offset : Nat := (((pa : Int) - (memBase : Int)) % (2 ^ w : Int)).toNat
  decide (offset < sizeofMem)

/-- The routine `FlashBlock::resetStats`: `memset` of `stats.periodic` to zero. -/
def resetStats (stats : FlashStats) : FlashStats :=
  { stats with
    periodic :=
      { blockTotal := 0
        blockHitSame := 0
        blockHitOther := 0
        blockMiss := 0
        blockMissCounts := List.replicate stats.periodic.blockMissCounts.length 0 } }

/-- The routine `FlashBlock::countBlockMiss(blockAddr)`. -/
def countBlockMiss (E : Env) (stats : FlashStats) (blockAddr : Nat) : Checked FlashStats :=
  let stats1 : FlashStats :=
    { stats with periodic := { stats.periodic with blockMiss := u32 (stats.periodic.blockMiss + 1) } }
  let blockNumber := blockAddr / E.BLOCK_SIZE
  if blockNumber < stats1.periodic.blockMissCounts.length then
    Checked.ok
      { stats1 with
        periodic :=
          { stats1.periodic with
            blockMissCounts :=
              stats1.periodic.blockMissCounts.set blockNumber
                (u32 (stats1.periodic.blockMissCounts.getD blockNumber 0 + 1)) } }
  else
    Checked.assertFailed stats1

/-- The array read `stats.periodic.blockMissCounts[blockNum]`. -/
def missCount (stats : FlashStats) (blockNum : Nat) : Nat :=
  stats.periodic.blockMissCounts.getD blockNum 0

/-- The comparator `FlashBlock::hotBlockSort(i, j)`. -/
def hotBlockSort (stats : FlashStats) (i j : Nat) : Bool :=
  decide (missCount stats j < missCount stats i)

/-- The five numbers of the summary line. -/
structure Summary where
  accPerSec : ℚ
  samePerSec : ℚ
  cachedPerSec : ℚ
  missPerSec : ℚ
  busUtilization : ℚ
deriving DecidableEq

/-- One line of the hot-block list. -/
structure HotLine where
  numMisses : Nat
  blockAddr : Nat
  va : Nat
  name : String
deriving DecidableEq, Repr

/-- Everything written to the log by one firing of `dumpStats`. -/
structure Report where
  summary : Summary
  hotLines : List HotLine
deriving DecidableEq

/-- Outcome of `dumpStats`: what was logged, if anything, and the new state. -/
structure DumpResult where
  log : Option Report
  stats : FlashStats
deriving DecidableEq

/-- The line logged for block number `blockNum` in the hot-block loop. -/
def hotLine (E : Env) (stats : FlashStats) (blockNum : Nat) : HotLine :=
  let numMisses := missCount stats blockNum
  let blockAddr := u32 (blockNum * E.BLOCK_SIZE)
  let va := E.flashToVirtAddr blockAddr
  let name := E.formatAddress va
  { numMisses := numMisses, blockAddr := blockAddr, va := va, name := name }

/-- The block numbers for which the hot-block loop logs a line, given the
entries `hotBlocks[0], ..., hotBlocks[numHotBlocks - 1]` it walks through: the
loop stops at the first entry without misses. -/
def hotBlockLoop (stats : FlashStats) : List Nat → List Nat
  | [] => []
  | blockNum :: rest =>
    let numMisses := missCount stats blockNum
    if numMisses = 0 then []
    else blockNum :: hotBlockLoop stats rest

/-- The number of hot blocks listed by `dumpStats`. -/
def numHotBlocks : Nat := 10

/-- The vector `hotBlocks` after the call of `std::partial_sort`. -/
def rankedBlocks (E : Env) (stats : FlashStats) : List Nat :=
  E.partialSort (hotBlockSort stats) numHotBlocks
    (List.range stats.periodic.blockMissCounts.length)

/-- The block numbers of the hot-block lines of a firing `dumpStats`. -/
def hotBlockList (E : Env) (stats : FlashStats) : List Nat :=
  hotBlockLoop stats ((rankedBlocks E stats).take numHotBlocks)

/-- The summary line of a firing `dumpStats` with `tickDiff` elapsed ticks. -/
def summaryLine (E : Env) (stats : FlashStats) (tickDiff : Int) : Summary :=
  let flashBusMHZ : ℚ := 18
  let bytesToMBits : ℚ := 10 * (1 / 1000000)
  let dt : ℚ := (tickDiff : ℚ) / (E.sTicks1 : ℚ)
  let totalBytes : Nat := u32 (stats.periodic.blockMiss * E.BLOCK_SIZE)
  let effectiveMHZ : ℚ := (totalBytes : ℚ) / dt * bytesToMBits
  { accPerSec := (stats.periodic.blockTotal : ℚ) / dt
    samePerSec := (stats.periodic.blockHitSame : ℚ) / dt
    cachedPerSec := (stats.periodic.blockHitOther : ℚ) / dt
    missPerSec := (stats.periodic.blockMiss : ℚ) / dt
    busUtilization := effectiveMHZ / flashBusMHZ * 100 }

/-- The routine `FlashBlock::dumpStats`. The flag `opt_svmFlashStats` and the
clock reading `now = SysTime::ticks()` are arguments. The result is `none` when
the call of `std::partial_sort` is outside its contract, which happens when the
histogram has fewer than `numHotBlocks` slots. -/
def dumpStats (E : Env) (opt_svmFlashStats : Bool) (now : Int) (stats : FlashStats) :
    Option DumpResult :=
  let interval := E.sTicks1
  if !opt_svmFlashStats then
    some { log := none, stats := stats }
  else
    let tickDiff := now - stats.timestamp
    if tickDiff < interval then
      some { log := none, stats := stats }
    else if numHotBlocks ≤ stats.periodic.blockMissCounts.length then
      some
        { log := some
            { summary := summaryLine E stats tickDiff
              hotLines := (hotBlockList E stats).map (hotLine E stats) }
          stats := { resetStats stats with timestamp := now } }
    else
      none

/-- The accounting equation between the four interval counters. -/
def statsInvariant (stats : FlashStats) : Prop :=
  stats.periodic.blockTotal =
    stats.periodic.blockHitSame + stats.periodic.blockHitOther + stats.periodic.blockMiss

instance (stats : FlashStats) : Decidable (statsInvariant stats) := by
  unfold statsInvariant; infer_instance

/-- The postcondition of `std::partial_sort(first, first + k, last, comp)`:
the result is a rearrangement of the input, its first `k` entries are in order
for `comp`, and no later entry goes before any of them. -/
def PartialSorted (comp : Nat → Nat → Bool) (k : Nat) (input output : List Nat) : Prop :=
  output.Perm input ∧
  (output.take k).Pairwise (fun a b => comp b a = false) ∧
  ∀ a ∈ output.take k, ∀ b ∈ output.drop k, comp b a = false

instance (comp : Nat → Nat → Bool) (k : Nat) (input output : List Nat) :
    Decidable (PartialSorted comp k input output) := by
  unfold PartialSorted; infer_instance

/-- The library routine behaves as `std::partial_sort` on the call made by
`dumpStats` in state `stats`. -/
def SortsHotBlocks (E : Env) (stats : FlashStats) : Prop :=
  PartialSorted (hotBlockSort stats) numHotBlocks
    (List.range stats.periodic.blockMissCounts.length) (rankedBlocks E stats)

instance (E : Env) (stats : FlashStats) : Decidable (SortsHotBlocks E stats) := by
  unfold SortsHotBlocks; infer_instance

/-- Scans the list for the first entry that no other entry beats under `comp`,
starting from the candidate `best`; returns that entry together with all the
other entries (candidate included) in their original order. -/
def extractBest (comp : Nat → Nat → Bool) (best : Nat) : List Nat → Nat × List Nat
  | [] => (best, [])
  | x :: xs =>
    if comp x best then
      let r := extractBest comp x xs
      (r.1, best :: r.2)
    else
      let r := extractBest comp best xs
      (r.1, x :: r.2)

/-- A selection implementation of `std::partial_sort`: `k` times, move the best
remaining entry to the front of the unsorted part. -/
def selectionPartialSort (comp : Nat → Nat → Bool) : Nat → List Nat → List Nat
  | 0, xs => xs
  | _ + 1, [] => []
  | k + 1, x :: xs =>
    let r := extractBest comp x xs
    r.1 :: selectionPartialSort comp k r.2

/-- A sample environment: blocks of 64 bytes, nanosecond ticks. -/
def sampleEnv : Env :=
  { BLOCK_SIZE := 64
    sTicks1 := 1000000000
    flashToVirtAddr := fun a => a + 2147483648
    formatAddress := fun _ => "(unknown)"
    partialSort := selectionPartialSort }

/-- A state with a histogram of `n` slots, all counters zero. -/
def zeroStats (n : Nat) : FlashStats :=
  { timestamp := 0
    periodic :=
      { blockTotal := 0, blockHitSame := 0, blockHitOther := 0, blockMiss := 0
        blockMissCounts := List.replicate n 0 } }


/-- A list of block numbers is a full ranking: all block numbers of the
histogram, sorted by descending miss count. -/
def FullySorted (stats : FlashStats) (sorted : List Nat) : Prop :=
  sorted.Perm (List.range stats.periodic.blockMissCounts.length) ∧
  sorted.Pairwise (fun a b => missCount stats b ≤ missCount stats a)

instance (stats : FlashStats) (sorted : List Nat) : Decidable (FullySorted stats sorted) := by
  unfold FullySorted; infer_instance

/-- The substitute ranking described for the hot-block list: from a full
ranking, truncate to `numHotBlocks` entries and cut at the first entry without
misses. -/
def fullSortRanking (stats : FlashStats) (sorted : List Nat) : List Nat :=
  (sorted.take numHotBlocks).takeWhile (fun b => decide (missCount stats b ≠ 0))

/-- A full sort of all block numbers by descending miss count (insertion sort,
which keeps blocks of equal miss count in ascending block order). -/
def fullSort (stats : FlashStats) : List Nat :=
  List.insertionSort (fun a b => missCount stats b ≤ missCount stats a)
    (List.range stats.periodic.blockMissCounts.length)

/-- The sample environment with another implementation of `std::partial_sort`:
the same selection, run over the vector read from its far end, so that among
blocks of equal miss count the higher block number comes first. -/
def sampleEnvDescendingTies : Env :=
  { sampleEnv with
    partialSort := fun comp k xs => selectionPartialSort comp k xs.reverse }

/-- The state of the scenario with 3 misses on block 2 and 2 misses on block 0
(and 5 hits), in a histogram of twelve slots. -/
def scenarioStats : FlashStats :=
  { timestamp := 0
    periodic :=
      { blockTotal := 10, blockHitSame := 3, blockHitOther := 2, blockMiss := 5
        blockMissCounts := [2, 0, 3, 0, 0, 0, 0, 0, 0, 0, 0, 0] } }

/-- A state in which blocks 0 and 1 have one miss each, in a histogram of ten
slots. -/
def tiedStats : FlashStats :=
  { timestamp := 0
    periodic :=
      { blockTotal := 2, blockHitSame := 0, blockHitOther := 0, blockMiss := 2
        blockMissCounts := [1, 1, 0, 0, 0, 0, 0, 0, 0, 0] } }

/-- The requirement `std::partial_sort` puts on its comparator: a strict weak
ordering. -/
structure StrictWeakOrdering (comp : Nat → Nat → Bool) : Prop where
  irrefl : ∀ a, comp a a = false
  asymm : ∀ a b, comp a b = true → comp b a = false
  trans : ∀ a b c, comp a b = true → comp b c = true → comp a c = true
  incomp_trans : ∀ a b c, comp a b = false ∧ comp b a = false →
    comp b c = false ∧ comp c b = false → comp a c = false ∧ comp c a = false

/-- The outcome of `n` successive calls of `dumpStats` with the same flag and
the same clock reading: the reports logged, in order, and the final state. -/
def dumpStatsRepeat (E : Env) (opt_svmFlashStats : Bool) (now : Int) :
    Nat → FlashStats → Option (List Report × FlashStats)
  | 0, stats => some ([], stats)
  | n + 1, stats =>
    match dumpStats E opt_svmFlashStats now stats with
    | none => none
    | some r =>
      match dumpStatsRepeat E opt_svmFlashStats now n r.stats with
      | none => none
      | some res => some (r.log.toList ++ res.1, res.2)

/-- The outcome of successive calls of `countBlockMiss`, one per address of the
list, stopping at the first failed assertion. -/
def countBlockMissSeq (E : Env) : FlashStats → List Nat → Checked FlashStats
  | stats, [] => Checked.ok stats
  | stats, blockAddr :: rest =>
    match countBlockMiss E stats blockAddr with
    | Checked.ok s => countBlockMissSeq E s rest
    | Checked.assertFailed s => Checked.assertFailed s

/-- A cached block: the flash address it stands for and the bytes returned by
`getData()`. -/
structure Block where
  address : Nat
  getData : List Nat
deriving DecidableEq, Repr

/-- Modelled from the spec: the device check `FlashDevice::verify(address,
buf, len)`, which is declared outside the files at hand. It compares byte for
byte: the result is `true` when each of the `len` bytes of `buf` equals the
byte of the flash image at `address + i`. -/
def FlashDevice.verify (flash : Nat → Nat) (address : Nat) (buf : List Nat) (len : Nat) : Bool :=
  (List.range len).all (fun i => decide (buf[i]? = some (flash (address + i))))

/-- The routine `FlashBlock::verify`: the device check on the block's address,
its data and `BLOCK_SIZE`. The result is the verdict of the device check. -/
def verify (E : Env) (flash : Nat → Nat) (block : Block) : Bool :=
  FlashDevice.verify flash block.address block.getData E.BLOCK_SIZE

/-- A sample flash image: the byte at address `a` is `a % 256`. -/
def sampleFlash (a : Nat) : Nat := a % 256

/-- The block at flash address 128 filled from `sampleFlash`, with blocks of 64
bytes. -/
def sampleBlock : Block :=
  { address := 128
    getData := (List.range 64).map (fun i => sampleFlash (128 + i)) }

/-- The scenario state with `2 ^ 26` misses, whose byte count at 64 bytes per
block is `2 ^ 32`. -/
def overflowStats : FlashStats :=
  { scenarioStats with
    periodic := { scenarioStats.periodic with blockMiss := 67108864 } }

/-! ## The sample implementations of `std::partial_sort` meet its postcondition -/

section SelectionSort

lemma StrictWeakOrdering.neg_trans {comp : Nat → Nat → Bool} (h : StrictWeakOrdering comp)
    (a b c : Nat) (hab : comp a b = false) (hbc : comp b c = false) : comp a c = false := by
  cases hac : comp a c
  · rfl
  · exfalso
    cases hba : comp b a
    · cases hcb : comp c b
      · have := (h.incomp_trans a b c ⟨hab, hba⟩ ⟨hbc, hcb⟩).1
        rw [hac] at this
        exact Bool.noConfusion this
      · have := h.trans a c b hac hcb
        rw [hab] at this
        exact Bool.noConfusion this
    · have := h.trans b a c hba hac
      rw [hbc] at this
      exact Bool.noConfusion this

lemma hotBlockSort_strictWeakOrdering (stats : FlashStats) :
    StrictWeakOrdering (hotBlockSort stats) := by
  constructor
  · intro a
    simp [hotBlockSort]
  · intro a b
    simp only [hotBlockSort, decide_eq_true_eq, decide_eq_false_iff_not]
    omega
  · intro a b c
    simp only [hotBlockSort, decide_eq_true_eq]
    omega
  · intro a b c
    simp only [hotBlockSort, decide_eq_false_iff_not]
    omega

lemma extractBest_perm (comp : Nat → Nat → Bool) :
    ∀ (xs : List Nat) (best : Nat),
      ((extractBest comp best xs).1 :: (extractBest comp best xs).2).Perm (best :: xs)
  | [], _ => List.Perm.refl _
  | x :: xs, best => by
    unfold extractBest
    split_ifs with h
    · have ih := extractBest_perm comp xs x
      exact (List.Perm.swap _ _ _).trans (ih.cons best)
    · have ih := extractBest_perm comp xs best
      exact ((List.Perm.swap _ _ _).trans (ih.cons x)).trans (List.Perm.swap _ _ _)

lemma extractBest_best {comp : Nat → Nat → Bool} (hc : StrictWeakOrdering comp) :
    ∀ (xs : List Nat) (best : Nat),
      comp best (extractBest comp best xs).1 = false ∧
      ∀ y ∈ (extractBest comp best xs).2, comp y (extractBest comp best xs).1 = false
  | [], best => ⟨hc.irrefl best, fun _ hy => absurd hy (List.not_mem_nil _)⟩
  | x :: xs, best => by
    unfold extractBest
    split_ifs with h
    · obtain ⟨ih1, ih2⟩ := extractBest_best hc xs x
      have hb : comp best (extractBest comp x xs).1 = false :=
        hc.neg_trans _ _ _ (hc.asymm x best h) ih1
      refine ⟨hb, ?_⟩
      intro y hy
      rcases List.mem_cons.mp hy with rfl | hy
      · exact hb
      · exact ih2 y hy
    · obtain ⟨ih1, ih2⟩ := extractBest_best hc xs best
      refine ⟨ih1, ?_⟩
      intro y hy
      rcases List.mem_cons.mp hy with rfl | hy
      · exact hc.neg_trans _ _ _ (by simpa using h) ih1
      · exact ih2 y hy

/-- The selection partial sort meets the postcondition of `std::partial_sort`
for every strict weak ordering, every `k` and every input. -/
lemma selectionPartialSort_sorts {comp : Nat → Nat → Bool} (hc : StrictWeakOrdering comp) :
    ∀ (k : Nat) (xs : List Nat), PartialSorted comp k xs (selectionPartialSort comp k xs)
  | 0, xs => by
    refine ⟨List.Perm.refl _, ?_, ?_⟩ <;> simp [selectionPartialSort]
  | _ + 1, [] => by
    refine ⟨List.Perm.refl _, ?_, ?_⟩ <;> simp [selectionPartialSort]
  | k + 1, x :: xs => by
    obtain ⟨ihp, ihs, ihd⟩ := selectionPartialSort_sorts hc k (extractBest comp x xs).2
    obtain ⟨_, hbest⟩ := extractBest_best hc xs x
    have hrest : ∀ y ∈ selectionPartialSort comp k (extractBest comp x xs).2,
        comp y (extractBest comp x xs).1 = false :=
      fun y hy => hbest y (ihp.mem_iff.mp hy)
    simp only [selectionPartialSort]
    refine ⟨(ihp.cons _).trans (extractBest_perm comp xs x), ?_, ?_⟩
    · rw [List.take_succ_cons, List.pairwise_cons]
      exact ⟨fun y hy => hrest y ((List.take_sublist _ _).subset hy), ihs⟩
    · intro a ha b hb
      rw [List.drop_succ_cons] at hb
      rw [List.take_succ_cons] at ha
      rcases List.mem_cons.mp ha with rfl | ha
      · exact hrest b ((List.drop_sublist _ _).subset hb)
      · exact ihd a ha b hb

lemma sampleEnv_sorts (stats : FlashStats) : SortsHotBlocks sampleEnv stats :=
  selectionPartialSort_sorts (hotBlockSort_strictWeakOrdering stats) _ _

lemma sampleEnvDescendingTies_sorts (stats : FlashStats) :
    SortsHotBlocks sampleEnvDescendingTies stats := by
  obtain ⟨hp, hs, hd⟩ := selectionPartialSort_sorts (hotBlockSort_strictWeakOrdering stats)
    numHotBlocks (List.range stats.periodic.blockMissCounts.length).reverse
  exact ⟨hp.trans (List.reverse_perm _), hs, hd⟩

end SelectionSort

/-! ## Helper lemmas -/

section Helpers

lemma u32_of_lt {n : Nat} (h : n < 2 ^ 32) : u32 n = n := Nat.mod_eq_of_lt h

lemma countBlockMiss_ok (E : Env) (stats : FlashStats) (blockAddr : Nat)
    (h : blockAddr / E.BLOCK_SIZE < stats.periodic.blockMissCounts.length) :
    countBlockMiss E stats blockAddr =
      Checked.ok
        { timestamp := stats.timestamp
          periodic :=
            { blockTotal := stats.periodic.blockTotal
              blockHitSame := stats.periodic.blockHitSame
              blockHitOther := stats.periodic.blockHitOther
              blockMiss := u32 (stats.periodic.blockMiss + 1)
              blockMissCounts :=
                stats.periodic.blockMissCounts.set (blockAddr / E.BLOCK_SIZE)
                  (u32 (stats.periodic.blockMissCounts.getD (blockAddr / E.BLOCK_SIZE) 0 + 1)) } } := by
  simp [countBlockMiss, h]

lemma dumpStats_silent (E : Env) (flag : Bool) (now : Int) (stats : FlashStats)
    (h : flag = false ∨ now - stats.timestamp < E.sTicks1) :
    dumpStats E flag now stats = some { log := none, stats := stats } := by
  unfold dumpStats
  rcases h with h | h
  · simp [h]
  · cases flag <;> simp [h]

lemma dumpStats_fires (E : Env) (now : Int) (stats : FlashStats)
    (h : E.sTicks1 ≤ now - stats.timestamp)
    (hN : numHotBlocks ≤ stats.periodic.blockMissCounts.length) :
    dumpStats E true now stats =
      some
        { log := some
            { summary := summaryLine E stats (now - stats.timestamp)
              hotLines := (hotBlockList E stats).map (hotLine E stats) }
          stats := { resetStats stats with timestamp := now } } := by
  unfold dumpStats
  simp [not_lt.mpr h, hN]

lemma dumpStats_fires_none (E : Env) (now : Int) (stats : FlashStats)
    (h : E.sTicks1 ≤ now - stats.timestamp)
    (hN : ¬ numHotBlocks ≤ stats.periodic.blockMissCounts.length) :
    dumpStats E true now stats = none := by
  unfold dumpStats
  simp [not_lt.mpr h, hN]

lemma dumpStats_stats_cases (E : Env) (flag : Bool) (now : Int) (stats : FlashStats)
    (r : DumpResult) (h : dumpStats E flag now stats = some r) :
    (r.log = none ∧ r.stats = stats) ∨
      (r.log ≠ none ∧ flag = true ∧ E.sTicks1 ≤ now - stats.timestamp ∧
        numHotBlocks ≤ stats.periodic.blockMissCounts.length ∧
        r.stats = { resetStats stats with timestamp := now }) := by
  by_cases hg : flag = false ∨ now - stats.timestamp < E.sTicks1
  · rw [dumpStats_silent E flag now stats hg] at h
    left
    cases h
    exact ⟨rfl, rfl⟩
  · push_neg at hg
    obtain ⟨hf, ht⟩ := hg
    have hf' : flag = true := by cases flag <;> simp_all
    subst hf'
    by_cases hN : numHotBlocks ≤ stats.periodic.blockMissCounts.length
    · rw [dumpStats_fires E now stats ht hN] at h
      right
      cases h
      exact ⟨by simp, rfl, ht, hN, rfl⟩
    · rw [dumpStats_fires_none E now stats ht hN] at h
      cases h

end Helpers

/-! ## The accounting invariant -/

/-- C1 (as stated, refuted): from the all-zero state, which satisfies the
accounting equation, `countBlockMiss` at the in-range address `0` ends in a
state that violates it: `blockMiss` is 1 and `blockTotal` is still 0. -/
theorem countBlockMiss_breaks_invariant :
    statsInvariant (zeroStats 4) ∧
    0 / sampleEnv.BLOCK_SIZE < (zeroStats 4).periodic.blockMissCounts.length ∧
    ∃ s, countBlockMiss sampleEnv (zeroStats 4) 0 = Checked.ok s ∧ ¬ statsInvariant s := by
  refine ⟨by decide, by decide, _, rfl, by decide⟩

/-- C1 (amended): `resetStats` establishes the accounting equation with all
four counters zero, whatever the state before; `dumpStats` returns a state
that satisfies it whenever the state before does, fired or not, and it does
return once the histogram has at least ten slots; `countBlockMiss` at an
in-range address runs to its end and, with `blockMiss` below `2 ^ 32 - 1`,
leaves `blockHitSame + blockHitOther + blockMiss` one above `blockTotal`. -/
theorem invariant_reset_dump (E : Env) (flag : Bool) (now : Int) (stats : FlashStats)
    (hinv : statsInvariant stats) :
    (statsInvariant (resetStats stats) ∧
      (resetStats stats).periodic.blockTotal = 0 ∧
      (resetStats stats).periodic.blockHitSame = 0 ∧
      (resetStats stats).periodic.blockHitOther = 0 ∧
      (resetStats stats).periodic.blockMiss = 0) ∧
    (∀ r, dumpStats E flag now stats = some r → statsInvariant r.stats) ∧
    (numHotBlocks ≤ stats.periodic.blockMissCounts.length →
      ∃ r, dumpStats E flag now stats = some r) ∧
    (∀ a, a / E.BLOCK_SIZE < stats.periodic.blockMissCounts.length →
      stats.periodic.blockMiss + 1 < 2 ^ 32 →
      ∃ s, countBlockMiss E stats a = Checked.ok s ∧
        s.periodic.blockHitSame + s.periodic.blockHitOther + s.periodic.blockMiss =
          s.periodic.blockTotal + 1) := by
  refine ⟨⟨rfl, rfl, rfl, rfl, rfl⟩, ?_, ?_, ?_⟩
  · intro r hr
    rcases dumpStats_stats_cases E flag now stats r hr with ⟨_, h⟩ | ⟨_, _, _, _, h⟩
    · rw [h]; exact hinv
    · rw [h]; rfl
  · intro hN
    by_cases hg : flag = false ∨ now - stats.timestamp < E.sTicks1
    · exact ⟨_, dumpStats_silent E flag now stats hg⟩
    · push_neg at hg
      obtain ⟨hf, ht⟩ := hg
      have hf' : flag = true := by cases flag <;> simp_all
      subst hf'
      exact ⟨_, dumpStats_fires E now stats ht hN⟩
  · intro a ha hlt
    refine ⟨_, countBlockMiss_ok E stats a ha, ?_⟩
    simp only [u32_of_lt hlt]
    unfold statsInvariant at hinv
    omega

/-- Witness for `invariant_reset_dump`: the all-zero state with sixteen slots. -/
theorem invariant_reset_dump_witness :
    statsInvariant (zeroStats 16) ∧
    (∀ r, dumpStats sampleEnv true 1000000000 (zeroStats 16) = some r → statsInvariant r.stats) ∧
    (∃ r, dumpStats sampleEnv true 1000000000 (zeroStats 16) = some r) ∧
    (∃ s, countBlockMiss sampleEnv (zeroStats 16) 130 = Checked.ok s ∧
        s.periodic.blockHitSame + s.periodic.blockHitOther + s.periodic.blockMiss =
          s.periodic.blockTotal + 1) :=
  have h := invariant_reset_dump sampleEnv true 1000000000 (zeroStats 16) (by decide)
  ⟨by decide, h.2.1, h.2.2.1 (by decide), h.2.2.2 130 (by decide) (by decide)⟩

section Helpers

lemma getD_set (l : List Nat) (n i v : Nat) :
    (l.set n v).getD i 0 = if n = i ∧ n < l.length then v else l.getD i 0 := by
  simp only [List.getD_eq_getElem?_getD, List.getElem?_set]
  by_cases h : n = i
  · subst h
    by_cases hl : n < l.length
    · simp [hl]
    · simp [hl, List.getElem?_eq_none (not_lt.mp hl)]
  · simp [h]

lemma isAddrValid_offset (w memBase pa : Nat) (hb : memBase ≤ 2 ^ w) (hpa : pa < 2 ^ w) :
    (((pa : Int) - (memBase : Int)) % (2 ^ w : Int)).toNat =
      if memBase ≤ pa then pa - memBase else 2 ^ w - memBase + pa := by
  have hM : ((2 ^ w : Nat) : Int) = (2 ^ w : Int) := by push_cast; rfl
  rw [← hM]
  generalize 2 ^ w = M at *
  split_ifs with h
  · rw [Int.emod_eq_of_lt (by omega) (by omega)]
    omega
  · rw [← Int.add_emod_self, Int.emod_eq_of_lt (by omega) (by omega)]
    omega

end Helpers

/-! ## Recording a miss -/

/-- C2 (as stated, refuted): `countBlockMiss` at the in-range address `0`
leaves `blockTotal` at 0 instead of raising it to 1; and from a state whose
`blockMiss` is `2 ^ 32 - 1` the counter comes out as 0. -/
theorem countBlockMiss_total_unchanged_example :
    (∃ s, countBlockMiss sampleEnv (zeroStats 4) 0 = Checked.ok s ∧
      s.periodic.blockTotal ≠ (zeroStats 4).periodic.blockTotal + 1) ∧
    (∃ s, countBlockMiss sampleEnv
        { zeroStats 4 with periodic := { (zeroStats 4).periodic with blockMiss := 4294967295 } } 0
          = Checked.ok s ∧ s.periodic.blockMiss = 0) := by
  refine ⟨⟨_, rfl, by decide⟩, ⟨_, rfl, by decide⟩⟩

/-- C2 (amended): at an address whose block number is within the histogram,
`countBlockMiss` runs to its end, sets `blockMiss` to its successor modulo
`2 ^ 32` (exactly one more when `blockMiss` is below `2 ^ 32 - 1`) and leaves
`blockTotal` as it was. -/
theorem countBlockMiss_counters (E : Env) (stats : FlashStats) (a : Nat)
    (ha : a / E.BLOCK_SIZE < stats.periodic.blockMissCounts.length) :
    ∃ s, countBlockMiss E stats a = Checked.ok s ∧
      s.periodic.blockMiss = (stats.periodic.blockMiss + 1) % 2 ^ 32 ∧
      (stats.periodic.blockMiss + 1 < 2 ^ 32 →
        s.periodic.blockMiss = stats.periodic.blockMiss + 1) ∧
      s.periodic.blockTotal = stats.periodic.blockTotal := by
  refine ⟨_, countBlockMiss_ok E stats a ha, rfl, ?_, rfl⟩
  intro hlt
  exact u32_of_lt hlt

/-- Witness for `countBlockMiss_counters`: address 130 lies in block 2 of 4. -/
theorem countBlockMiss_counters_witness :
    ∃ s, countBlockMiss sampleEnv (zeroStats 4) 130 = Checked.ok s ∧
      s.periodic.blockMiss = ((zeroStats 4).periodic.blockMiss + 1) % 2 ^ 32 ∧
      ((zeroStats 4).periodic.blockMiss + 1 < 2 ^ 32 →
        s.periodic.blockMiss = (zeroStats 4).periodic.blockMiss + 1) ∧
      s.periodic.blockTotal = (zeroStats 4).periodic.blockTotal :=
  countBlockMiss_counters sampleEnv (zeroStats 4) 130 (by decide)

/-- C3 (as stated, refuted): with the entry of block 0 at `2 ^ 32 - 1`, a miss
at address 0 leaves that entry at 0, not one higher. -/
theorem countBlockMiss_histogram_wraps_example :
    ∃ s, countBlockMiss sampleEnv
        { zeroStats 1 with periodic := { (zeroStats 1).periodic with blockMissCounts := [4294967295] } } 0
          = Checked.ok s ∧
      s.periodic.blockMissCounts.getD 0 0 ≠ 4294967295 + 1 ∧
      s.periodic.blockMissCounts.getD 0 0 = 0 := by
  refine ⟨_, rfl, by decide, by decide⟩

/-- C3 (amended): for an address inside an in-range block `B`,
`countBlockMiss` runs to its end, sets `blockMissCounts[B]` to its successor
modulo `2 ^ 32` (exactly one more when the entry is below `2 ^ 32 - 1`), and
leaves every other histogram entry, the histogram capacity, `blockHitSame` and
`blockHitOther` as they were. -/
theorem countBlockMiss_histogram (E : Env) (stats : FlashStats) (a B : Nat)
    (hB : a / E.BLOCK_SIZE = B) (hrange : B < stats.periodic.blockMissCounts.length) :
    ∃ s, countBlockMiss E stats a = Checked.ok s ∧
      s.periodic.blockMissCounts.getD B 0 =
        (stats.periodic.blockMissCounts.getD B 0 + 1) % 2 ^ 32 ∧
      (stats.periodic.blockMissCounts.getD B 0 + 1 < 2 ^ 32 →
        s.periodic.blockMissCounts.getD B 0 = stats.periodic.blockMissCounts.getD B 0 + 1) ∧
      (∀ i, i ≠ B →
        s.periodic.blockMissCounts.getD i 0 = stats.periodic.blockMissCounts.getD i 0) ∧
      s.periodic.blockMissCounts.length = stats.periodic.blockMissCounts.length ∧
      s.periodic.blockHitSame = stats.periodic.blockHitSame ∧
      s.periodic.blockHitOther = stats.periodic.blockHitOther := by
  subst hB
  refine ⟨_, countBlockMiss_ok E stats a hrange, ?_, ?_, ?_, ?_, rfl, rfl⟩
  · simp [getD_set, hrange, u32]
  · intro hlt
    simp only [getD_set, hrange, and_self, if_true]
    exact u32_of_lt hlt
  · intro i hi
    simp [getD_set, Ne.symm hi]
  · simp

/-- Witness for `countBlockMiss_histogram`: address 130 lies in block 2 of 4. -/
theorem countBlockMiss_histogram_witness :
    ∃ s, countBlockMiss sampleEnv (zeroStats 4) 130 = Checked.ok s ∧
      s.periodic.blockMissCounts.getD 2 0 =
        ((zeroStats 4).periodic.blockMissCounts.getD 2 0 + 1) % 2 ^ 32 ∧
      ((zeroStats 4).periodic.blockMissCounts.getD 2 0 + 1 < 2 ^ 32 →
        s.periodic.blockMissCounts.getD 2 0 = (zeroStats 4).periodic.blockMissCounts.getD 2 0 + 1) ∧
      (∀ i, i ≠ 2 →
        s.periodic.blockMissCounts.getD i 0 = (zeroStats 4).periodic.blockMissCounts.getD i 0) ∧
      s.periodic.blockMissCounts.length = (zeroStats 4).periodic.blockMissCounts.length ∧
      s.periodic.blockHitSame = (zeroStats 4).periodic.blockHitSame ∧
      s.periodic.blockHitOther = (zeroStats 4).periodic.blockHitOther :=
  countBlockMiss_histogram sampleEnv (zeroStats 4) 130 2 (by decide) (by decide)

/-! ## Resetting -/

/-- C4: after `resetStats` the four interval counters are 0, every histogram
entry is 0 (the histogram keeps its capacity), and `timestamp` is the value it
had before. -/
theorem resetStats_zeroes (stats : FlashStats) :
    (resetStats stats).periodic.blockTotal = 0 ∧
    (resetStats stats).periodic.blockHitSame = 0 ∧
    (resetStats stats).periodic.blockHitOther = 0 ∧
    (resetStats stats).periodic.blockMiss = 0 ∧
    (resetStats stats).periodic.blockMissCounts.length = stats.periodic.blockMissCounts.length ∧
    (∀ i, (resetStats stats).periodic.blockMissCounts.getD i 0 = 0) ∧
    (∀ x ∈ (resetStats stats).periodic.blockMissCounts, x = 0) ∧
    (resetStats stats).timestamp = stats.timestamp := by
  refine ⟨rfl, rfl, rfl, rfl, by simp [resetStats], ?_, ?_, rfl⟩
  · intro i
    simp only [resetStats, List.getD_eq_getElem?_getD]
    by_cases h : i < stats.periodic.blockMissCounts.length
    · simp [h]
    · simp [List.getElem?_eq_none]
  · intro x hx
    simp only [resetStats] at hx
    exact List.eq_of_mem_replicate hx

/-! ## Address validity -/

/-- C5: with the arena inside the pointer range (`memBase + sizeofMem ≤ 2 ^ w`)
and `pa` a `w`-bit address, `isAddrValid` holds exactly for
`memBase ≤ pa < memBase + sizeofMem`; an address below the arena start, where
the subtraction wraps, is rejected. -/
theorem isAddrValid_iff (w memBase sizeofMem pa : Nat)
    (hfit : memBase + sizeofMem ≤ 2 ^ w) (hpa : pa < 2 ^ w) :
    (isAddrValid w memBase sizeofMem pa = true ↔ memBase ≤ pa ∧ pa < memBase + sizeofMem) ∧
    (pa < memBase → isAddrValid w memBase sizeofMem pa = false) := by
  have key : isAddrValid w memBase sizeofMem pa = true ↔
      memBase ≤ pa ∧ pa < memBase + sizeofMem := by
    unfold isAddrValid
    simp only [decide_eq_true_eq]
    rw [isAddrValid_offset w memBase pa (by omega) hpa]
    split_ifs with h <;> omega
  refine ⟨key, fun hlt => ?_⟩
  cases hv : isAddrValid w memBase sizeofMem pa
  · rfl
  · exact absurd (key.mp hv).1 (by omega)

/-- Witness for `isAddrValid_iff`: a one-block arena of 256 bytes at 4096 and
the address 4000 just below it, on a 32-bit machine. -/
theorem isAddrValid_iff_witness :
    (isAddrValid 32 4096 256 4000 = true ↔ 4096 ≤ 4000 ∧ 4000 < 4096 + 256) ∧
    (4000 < 4096 → isAddrValid 32 4096 256 4000 = false) :=
  isAddrValid_iff 32 4096 256 4000 (by decide) (by decide)

/-! ## The hot-block list -/

section Helpers

lemma hotBlockLoop_eq_takeWhile (stats : FlashStats) (l : List Nat) :
    hotBlockLoop stats l = l.takeWhile (fun b => decide (missCount stats b ≠ 0)) := by
  induction l with
  | nil => rfl
  | cons b rest ih =>
    by_cases h : missCount stats b = 0
    · simp [hotBlockLoop, List.takeWhile_cons, h]
    · simp [hotBlockLoop, List.takeWhile_cons, h, ih]

lemma hotBlockList_eq (E : Env) (stats : FlashStats) :
    hotBlockList E stats =
      ((rankedBlocks E stats).take numHotBlocks).takeWhile
        (fun b => decide (missCount stats b ≠ 0)) :=
  hotBlockLoop_eq_takeWhile stats _

lemma hotLine_numMisses (E : Env) (stats : FlashStats) (l : List Nat) :
    (l.map (hotLine E stats)).map HotLine.numMisses = l.map (missCount stats) := by
  simp [hotLine, Function.comp_def]

lemma hotBlockSort_eq_false (stats : FlashStats) (a b : Nat) :
    hotBlockSort stats b a = false ↔ missCount stats b ≤ missCount stats a := by
  simp [hotBlockSort]

/-- Under the postcondition of the partial sort, the ranked prefix is in
descending order of miss count. -/
lemma ranked_prefix_sorted (E : Env) (stats : FlashStats) (hsort : SortsHotBlocks E stats) :
    ((rankedBlocks E stats).take numHotBlocks).Pairwise
      (fun a b => missCount stats b ≤ missCount stats a) := by
  have h := hsort.2.1
  exact h.imp (fun {a b} hab => (hotBlockSort_eq_false stats a b).mp hab)

lemma ranked_prefix_dominates (E : Env) (stats : FlashStats) (hsort : SortsHotBlocks E stats) :
    ∀ a ∈ (rankedBlocks E stats).take numHotBlocks,
      ∀ b ∈ (rankedBlocks E stats).drop numHotBlocks,
        missCount stats b ≤ missCount stats a := by
  intro a ha b hb
  exact (hotBlockSort_eq_false stats a b).mp (hsort.2.2 a ha b hb)

lemma hotBlockList_sublist (E : Env) (stats : FlashStats) :
    (hotBlockList E stats).Sublist ((rankedBlocks E stats).take numHotBlocks) := by
  rw [hotBlockList_eq]
  exact List.takeWhile_sublist _

lemma hotBlockList_length_le (E : Env) (stats : FlashStats) :
    (hotBlockList E stats).length ≤ numHotBlocks := by
  have h := (hotBlockList_sublist E stats).length_le
  have h2 : ((rankedBlocks E stats).take numHotBlocks).length ≤ numHotBlocks := by
    rw [List.length_take]
    exact Nat.min_le_left _ _
  omega

lemma hotBlockList_nonzero (E : Env) (stats : FlashStats) :
    ∀ b ∈ hotBlockList E stats, missCount stats b ≠ 0 := by
  intro b hb
  rw [hotBlockList_eq] at hb
  have := List.mem_takeWhile_imp hb
  simpa using this

end Helpers

/-- C6: when `dumpStats` fires (flag on, interval elapsed, histogram of at
least ten slots, `std::partial_sort` meeting its postcondition), the hot-block
lines it logs have non-increasing miss counts from first to last, none of them
has miss count 0, and there are at most 10 of them. -/
theorem dumpStats_hotLines_descending (E : Env) (now : Int) (stats : FlashStats)
    (ht : E.sTicks1 ≤ now - stats.timestamp)
    (hN : numHotBlocks ≤ stats.periodic.blockMissCounts.length)
    (hsort : SortsHotBlocks E stats) :
    ∃ rep st, dumpStats E true now stats = some { log := some rep, stats := st } ∧
      (rep.hotLines.map HotLine.numMisses).Pairwise (fun m n => n ≤ m) ∧
      (∀ l ∈ rep.hotLines, l.numMisses ≠ 0) ∧
      rep.hotLines.length ≤ 10 := by
  refine ⟨_, _, dumpStats_fires E now stats ht hN, ?_, ?_, ?_⟩
  · show (((hotBlockList E stats).map (hotLine E stats)).map HotLine.numMisses).Pairwise _
    rw [hotLine_numMisses, List.pairwise_map]
    exact (ranked_prefix_sorted E stats hsort).sublist (hotBlockList_sublist E stats)
  · intro l hl
    obtain ⟨b, hb, rfl⟩ := List.mem_map.mp hl
    exact hotBlockList_nonzero E stats b hb
  · show ((hotBlockList E stats).map (hotLine E stats)).length ≤ 10
    rw [List.length_map]
    exact hotBlockList_length_le E stats

/-- Witness for `dumpStats_hotLines_descending`: the scenario state, one second
after the last report. -/
theorem dumpStats_hotLines_descending_witness :
    ∃ rep st, dumpStats sampleEnv true 1000000000 scenarioStats =
        some { log := some rep, stats := st } ∧
      (rep.hotLines.map HotLine.numMisses).Pairwise (fun m n => n ≤ m) ∧
      (∀ l ∈ rep.hotLines, l.numMisses ≠ 0) ∧
      rep.hotLines.length ≤ 10 :=
  dumpStats_hotLines_descending sampleEnv 1000000000 scenarioStats
    (by decide) (by decide) (by decide)

section Helpers

/-- In a list sorted by descending miss count, cutting at the first entry
without misses keeps exactly the entries with misses. -/
lemma takeWhile_eq_filter_of_sorted (stats : FlashStats) (l : List Nat)
    (h : l.Pairwise (fun a b => missCount stats b ≤ missCount stats a)) :
    l.takeWhile (fun b => decide (missCount stats b ≠ 0)) =
      l.filter (fun b => decide (missCount stats b ≠ 0)) := by
  induction l with
  | nil => rfl
  | cons a t ih =>
    rw [List.pairwise_cons] at h
    by_cases ha : missCount stats a = 0
    · have hnil : t.filter (fun b => decide (missCount stats b ≠ 0)) = [] := by
        rw [List.filter_eq_nil_iff]
        intro b hb
        have := h.1 b hb
        simp only [decide_eq_true_eq, ne_eq, not_not]
        omega
      rw [List.takeWhile_cons, List.filter_cons, hnil]
      simp [ha]
    · rw [List.takeWhile_cons, List.filter_cons, ih h.2]
      simp [ha]

lemma ranked_nodup (E : Env) (stats : FlashStats) (hsort : SortsHotBlocks E stats) :
    (rankedBlocks E stats).Nodup :=
  (hsort.1.nodup_iff).mpr (List.nodup_range _)

lemma ranked_mem (E : Env) (stats : FlashStats) (hsort : SortsHotBlocks E stats) (b : Nat) :
    b ∈ rankedBlocks E stats ↔ b < stats.periodic.blockMissCounts.length := by
  rw [hsort.1.mem_iff, List.mem_range]

lemma ranked_length (E : Env) (stats : FlashStats) (hsort : SortsHotBlocks E stats) :
    (rankedBlocks E stats).length = stats.periodic.blockMissCounts.length := by
  rw [hsort.1.length_eq, List.length_range]

/-- With at most `numHotBlocks` block numbers that have misses, each of them is
in the ranked prefix. -/
lemma nonzero_in_ranked_front (E : Env) (stats : FlashStats)
    (hN : numHotBlocks ≤ stats.periodic.blockMissCounts.length)
    (hsort : SortsHotBlocks E stats)
    (hfew : ((List.range stats.periodic.blockMissCounts.length).filter
      (fun b => decide (missCount stats b ≠ 0))).length ≤ numHotBlocks)
    (b : Nat) (hb : b < stats.periodic.blockMissCounts.length) (hnz : missCount stats b ≠ 0) :
    b ∈ (rankedBlocks E stats).take numHotBlocks := by
  have hmem : b ∈ rankedBlocks E stats := (ranked_mem E stats hsort b).mpr hb
  rw [← List.take_append_drop numHotBlocks (rankedBlocks E stats), List.mem_append] at hmem
  rcases hmem with h | h
  · exact h
  · exfalso
    have hdom := ranked_prefix_dominates E stats hsort
    have hA : ((rankedBlocks E stats).take numHotBlocks).filter
        (fun b => decide (missCount stats b ≠ 0)) = (rankedBlocks E stats).take numHotBlocks := by
      rw [List.filter_eq_self]
      intro a ha
      have := hdom a ha b h
      simp only [decide_eq_true_eq, ne_eq]
      omega
    have hB : 1 ≤ (((rankedBlocks E stats).drop numHotBlocks).filter
        (fun b => decide (missCount stats b ≠ 0))).length := by
      apply List.length_pos_of_mem (a := b)
      rw [List.mem_filter]
      exact ⟨h, by simpa using hnz⟩
    have hlen : ((rankedBlocks E stats).filter
        (fun b => decide (missCount stats b ≠ 0))).length =
        ((List.range stats.periodic.blockMissCounts.length).filter
          (fun b => decide (missCount stats b ≠ 0))).length :=
      (hsort.1.filter _).length_eq
    have hsplit : ((rankedBlocks E stats).filter
        (fun b => decide (missCount stats b ≠ 0))).length =
        ((rankedBlocks E stats).take numHotBlocks).length +
        (((rankedBlocks E stats).drop numHotBlocks).filter
          (fun b => decide (missCount stats b ≠ 0))).length := by
      conv_lhs => rw [← List.take_append_drop numHotBlocks (rankedBlocks E stats)]
      rw [List.filter_append, List.length_append, hA]
    have htake : ((rankedBlocks E stats).take numHotBlocks).length = numHotBlocks := by
      rw [List.length_take, ranked_length E stats hsort]
      exact Nat.min_eq_left hN
    omega

/-- A duplicate-free list with exactly the members 0 and 2 that lists 2 before
0 is the list `[2, 0]`. -/
lemma eq_two_zero (l : List Nat) (hnd : l.Nodup) (hmem : ∀ b, b ∈ l ↔ b = 2 ∨ b = 0)
    (hord : ∀ (i j : Nat) (_ : i < l.length) (_ : j < l.length), l.get ⟨i, ‹_›⟩ = 2 →
      l.get ⟨j, ‹_›⟩ = 0 → i < j) : l = [2, 0] := by
  have hperm : l.Perm [2, 0] := by
    rw [List.perm_ext_iff_of_nodup hnd (by decide)]
    intro b
    rw [hmem b]
    simp
  have hlen : l.length = 2 := hperm.length_eq
  match l, hlen with
  | [x, y], _ =>
    have hx := (hmem x).mp (by simp)
    have hy := (hmem y).mp (by simp)
    have hxy : x ≠ y := by
      intro h
      subst h
      simp at hnd
    have h10 := hord 1 0 (by simp) (by simp)
    simp only [List.get_eq_getElem, List.getElem_cons_succ, List.getElem_cons_zero] at h10
    rcases hx with rfl | rfl <;> rcases hy with rfl | rfl
    · exact absurd rfl hxy
    · rfl
    · exact absurd (h10 rfl rfl) (by omega)
    · exact absurd rfl hxy

end Helpers

/-- C7: when `dumpStats` fires on a histogram with at most 10 non-zero entries
(at least ten slots, `std::partial_sort` meeting its postcondition), the block
numbers on the hot-block lines are exactly the block numbers with a non-zero
miss count, each once, and a block with a strictly larger miss count stands
before every block with a smaller one. With 3 misses on block 2, 2 misses on
block 0 and none elsewhere, the list is block 2, then block 0. -/
theorem dumpStats_hotLines_exact (E : Env) (now : Int) (stats : FlashStats)
    (ht : E.sTicks1 ≤ now - stats.timestamp)
    (hN : numHotBlocks ≤ stats.periodic.blockMissCounts.length)
    (hsort : SortsHotBlocks E stats)
    (hfew : ((List.range stats.periodic.blockMissCounts.length).filter
      (fun b => decide (missCount stats b ≠ 0))).length ≤ 10) :
    ∃ rep st blocks, dumpStats E true now stats = some { log := some rep, stats := st } ∧
      rep.hotLines = blocks.map (hotLine E stats) ∧
      blocks.Nodup ∧
      (∀ b, b ∈ blocks ↔ b < stats.periodic.blockMissCounts.length ∧ missCount stats b ≠ 0) ∧
      (∀ (i j : Nat) (hi : i < blocks.length) (hj : j < blocks.length),
        missCount stats (blocks.get ⟨j, hj⟩) < missCount stats (blocks.get ⟨i, hi⟩) → i < j) ∧
      (missCount stats 2 = 3 → missCount stats 0 = 2 →
        (∀ b, b ≠ 2 → b ≠ 0 → missCount stats b = 0) → blocks = [2, 0]) := by
  have hsorted := ranked_prefix_sorted E stats hsort
  have hnd : (hotBlockList E stats).Nodup :=
    ((ranked_nodup E stats hsort).sublist (List.take_sublist _ _)).sublist
      (hotBlockList_sublist E stats)
  have hmem : ∀ b, b ∈ hotBlockList E stats ↔
      b < stats.periodic.blockMissCounts.length ∧ missCount stats b ≠ 0 := by
    intro b
    constructor
    · intro hb
      refine ⟨?_, hotBlockList_nonzero E stats b hb⟩
      exact (ranked_mem E stats hsort b).mp
        ((List.take_sublist _ _).subset ((hotBlockList_sublist E stats).subset hb))
    · rintro ⟨hb, hnz⟩
      rw [hotBlockList_eq, takeWhile_eq_filter_of_sorted stats _ hsorted, List.mem_filter]
      exact ⟨nonzero_in_ranked_front E stats hN hsort hfew b hb hnz, by simpa using hnz⟩
  have hord : ∀ (i j : Nat) (hi : i < (hotBlockList E stats).length)
      (hj : j < (hotBlockList E stats).length),
      missCount stats ((hotBlockList E stats).get ⟨j, hj⟩) <
        missCount stats ((hotBlockList E stats).get ⟨i, hi⟩) → i < j := by
    intro i j hi hj hlt
    have hpw := hsorted.sublist (hotBlockList_sublist E stats)
    rw [List.pairwise_iff_getElem] at hpw
    by_contra hij
    rcases Nat.lt_or_eq_of_le (not_lt.mp hij) with h | h
    · have := hpw j i hj hi h
      simp only [List.get_eq_getElem] at hlt
      omega
    · subst h
      exact absurd hlt (lt_irrefl _)
  refine ⟨_, _, hotBlockList E stats, dumpStats_fires E now stats ht hN, rfl, hnd, hmem, hord, ?_⟩
  intro h2 h0 hrest
  apply eq_two_zero _ hnd
  · intro b
    rw [hmem b]
    constructor
    · rintro ⟨_, hnz⟩
      by_contra hb
      push_neg at hb
      exact hnz (hrest b hb.1 hb.2)
    · have hN10 : 10 ≤ stats.periodic.blockMissCounts.length := hN
      rintro (rfl | rfl)
      · exact ⟨by omega, by omega⟩
      · exact ⟨by omega, by omega⟩
  · intro i j hi hj hi2 hj0
    apply hord i j hi hj
    rw [hi2, hj0]
    omega

/-- Witness for `dumpStats_hotLines_exact`: the scenario state, with 3 misses
on block 2 and 2 misses on block 0, one second after the last report. -/
theorem dumpStats_hotLines_exact_witness :
    ∃ rep st blocks, dumpStats sampleEnv true 1000000000 scenarioStats =
        some { log := some rep, stats := st } ∧
      rep.hotLines = blocks.map (hotLine sampleEnv scenarioStats) ∧
      blocks = [2, 0] := by
  obtain ⟨rep, st, blocks, h1, h2, _, _, _, h3⟩ :=
    dumpStats_hotLines_exact sampleEnv 1000000000 scenarioStats
      (by decide) (by decide) (by decide) (by decide)
  refine ⟨rep, st, blocks, h1, h2, h3 (by decide) (by decide) ?_⟩
  intro b hb2 hb0
  unfold missCount scenarioStats
  match b with
  | 0 => exact absurd rfl hb0
  | 1 => rfl
  | 2 => exact absurd rfl hb2
  | 3 => rfl
  | 4 => rfl
  | 5 => rfl
  | 6 => rfl
  | 7 => rfl
  | 8 => rfl
  | 9 => rfl
  | 10 => rfl
  | 11 => rfl
  | n + 12 => rfl

section Helpers

/-- The first `k` keys of a partially sorted list are the first `k` keys of
any fully sorted arrangement of the same entries. -/
lemma take_keys_eq_of_sorted (c : Nat → Nat) (k : Nat) (ys zs : List Nat)
    (hperm : ys.Perm zs)
    (hpre : (ys.take k).Pairwise (fun a b => c b ≤ c a))
    (hdom : ∀ a ∈ ys.take k, ∀ b ∈ ys.drop k, c b ≤ c a)
    (hzs : zs.Pairwise (fun a b => c b ≤ c a)) :
    (ys.map c).take k = (zs.map c).take k := by
  have hB := List.sorted_insertionSort (fun m n : Nat => m ≥ n) ((ys.drop k).map c)
  have hBperm := List.perm_insertionSort (fun m n : Nat => m ≥ n) ((ys.drop k).map c)
  have hsortedL : List.Sorted (fun m n : Nat => m ≥ n)
      ((ys.take k).map c ++ List.insertionSort (fun m n : Nat => m ≥ n) ((ys.drop k).map c)) := by
    unfold List.Sorted
    rw [List.pairwise_append]
    refine ⟨List.pairwise_map.mpr hpre, hB, ?_⟩
    intro m hm n hn
    obtain ⟨a, ha, rfl⟩ := List.mem_map.mp hm
    obtain ⟨b, hb, rfl⟩ := List.mem_map.mp (hBperm.mem_iff.mp hn)
    exact hdom a ha b hb
  have hsortedR : List.Sorted (fun m n : Nat => m ≥ n) (zs.map c) :=
    List.pairwise_map.mpr hzs
  have hpermL : ((ys.take k).map c ++
      List.insertionSort (fun m n : Nat => m ≥ n) ((ys.drop k).map c)).Perm (zs.map c) := by
    refine (List.Perm.append_left _ hBperm).trans ?_
    rw [← List.map_append, List.take_append_drop]
    exact hperm.map c
  have heq := List.eq_of_perm_of_sorted hpermL hsortedL hsortedR
  rw [← heq, ← List.map_take]
  by_cases hk : k ≤ ys.length
  · rw [List.take_left']
    rw [List.length_map, List.length_take]
    exact Nat.min_eq_left hk
  · have h1 : ys.take k = ys := List.take_of_length_le (by omega)
    have h2 : ys.drop k = [] := List.drop_of_length_le (by omega)
    rw [h1, h2]
    simp only [List.map_nil, List.insertionSort, List.append_nil]
    exact (List.take_of_length_le (by rw [List.length_map]; omega)).symm

/-- Two lists with the same keys are equal when equal keys force equal
entries. -/
lemma eq_of_map_eq_of_inj (c : Nat → Nat) :
    ∀ (l₁ l₂ : List Nat), l₁.map c = l₂.map c →
      (∀ a ∈ l₁, ∀ b ∈ l₂, c a = c b → a = b) → l₁ = l₂
  | [], [], _, _ => rfl
  | [], _ :: _, h, _ => by simp at h
  | _ :: _, [], h, _ => by simp at h
  | a :: t₁, b :: t₂, h, hinj => by
    simp only [List.map_cons, List.cons.injEq] at h
    have hab : a = b := hinj a (by simp) b (by simp) h.1
    have ht : t₁ = t₂ :=
      eq_of_map_eq_of_inj c t₁ t₂ h.2 (fun x hx y hy hxy =>
        hinj x (List.mem_cons_of_mem _ hx) y (List.mem_cons_of_mem _ hy) hxy)
    rw [hab, ht]

lemma map_missCount_takeWhile (stats : FlashStats) (l : List Nat) :
    (l.takeWhile (fun b => decide (missCount stats b ≠ 0))).map (missCount stats) =
      (l.map (missCount stats)).takeWhile (fun m => decide (m ≠ 0)) := by
  rw [List.takeWhile_map]
  rfl

/-- The miss counts listed through the partial sort are those listed through
any full sort. -/
lemma hot_counts_eq (E : Env) (stats : FlashStats) (sorted : List Nat)
    (hsort : SortsHotBlocks E stats) (hfull : FullySorted stats sorted) :
    (hotBlockList E stats).map (missCount stats) =
      (fullSortRanking stats sorted).map (missCount stats) := by
  rw [hotBlockList_eq]
  unfold fullSortRanking
  rw [map_missCount_takeWhile, map_missCount_takeWhile, List.map_take, List.map_take]
  congr 1
  exact take_keys_eq_of_sorted (missCount stats) numHotBlocks _ _
    (hsort.1.trans hfull.1.symm) (ranked_prefix_sorted E stats hsort)
    (ranked_prefix_dominates E stats hsort) hfull.2

end Helpers

/-- C8 (as stated, refuted): with one miss each on blocks 0 and 1, a partial
sort that meets the postcondition of `std::partial_sort` lists block 1 and then
block 0, while the full insertion sort lists block 0 and then block 1, so the
logged lines differ in their addresses. -/
theorem partial_sort_full_sort_differ :
    numHotBlocks ≤ tiedStats.periodic.blockMissCounts.length ∧
    SortsHotBlocks sampleEnvDescendingTies tiedStats ∧
    FullySorted tiedStats (fullSort tiedStats) ∧
    hotBlockList sampleEnvDescendingTies tiedStats = [1, 0] ∧
    fullSortRanking tiedStats (fullSort tiedStats) = [0, 1] ∧
    ((hotBlockList sampleEnvDescendingTies tiedStats).map
        (hotLine sampleEnvDescendingTies tiedStats)).map HotLine.blockAddr = [64, 0] ∧
    ((fullSortRanking tiedStats (fullSort tiedStats)).map
        (hotLine sampleEnvDescendingTies tiedStats)).map HotLine.blockAddr = [0, 64] ∧
    (hotBlockList sampleEnvDescendingTies tiedStats).map
        (hotLine sampleEnvDescendingTies tiedStats) ≠
      (fullSortRanking tiedStats (fullSort tiedStats)).map
        (hotLine sampleEnvDescendingTies tiedStats) := by
  refine ⟨by decide, by decide, by decide, by decide, by decide, by decide, by decide, ?_⟩
  intro h
  have h2 := congrArg (List.map HotLine.blockAddr) h
  revert h2
  decide

/-- C8 (amended): when `dumpStats` fires (histogram of at least ten slots,
`std::partial_sort` meeting its postcondition), the miss counts on its
hot-block lines, and hence the number of lines, are those obtained from any
full sort by descending miss count truncated to 10 and cut at the first entry
without misses; when no two blocks share a non-zero miss count, the lines are
the same altogether. -/
theorem dumpStats_hotLines_refine_full_sort (E : Env) (now : Int) (stats : FlashStats)
    (sorted : List Nat)
    (ht : E.sTicks1 ≤ now - stats.timestamp)
    (hN : numHotBlocks ≤ stats.periodic.blockMissCounts.length)
    (hsort : SortsHotBlocks E stats) (hfull : FullySorted stats sorted) :
    ∃ rep st, dumpStats E true now stats = some { log := some rep, stats := st } ∧
      rep.hotLines.map HotLine.numMisses =
        ((fullSortRanking stats sorted).map (hotLine E stats)).map HotLine.numMisses ∧
      rep.hotLines.length = (fullSortRanking stats sorted).length ∧
      ((∀ i j, i < stats.periodic.blockMissCounts.length →
          j < stats.periodic.blockMissCounts.length →
          missCount stats i ≠ 0 → missCount stats i = missCount stats j → i = j) →
        rep.hotLines = (fullSortRanking stats sorted).map (hotLine E stats)) := by
  have hcounts := hot_counts_eq E stats sorted hsort hfull
  refine ⟨_, _, dumpStats_fires E now stats ht hN, ?_, ?_, ?_⟩
  · show ((hotBlockList E stats).map (hotLine E stats)).map HotLine.numMisses = _
    rw [hotLine_numMisses, hotLine_numMisses]
    exact hcounts
  · show ((hotBlockList E stats).map (hotLine E stats)).length = _
    have := congrArg List.length hcounts
    simpa using this
  · intro hinj
    show (hotBlockList E stats).map (hotLine E stats) = _
    congr 1
    apply eq_of_map_eq_of_inj (missCount stats) _ _ hcounts
    intro a ha b hb hab
    have ha1 : a < stats.periodic.blockMissCounts.length :=
      (ranked_mem E stats hsort a).mp
        ((List.take_sublist _ _).subset ((hotBlockList_sublist E stats).subset ha))
    have hb1 : b < stats.periodic.blockMissCounts.length := by
      have hb2 : b ∈ sorted :=
        (List.take_sublist _ _).subset ((List.takeWhile_sublist _).subset hb)
      exact List.mem_range.mp (hfull.1.mem_iff.mp hb2)
    exact hinj a b ha1 hb1 (hotBlockList_nonzero E stats a ha) hab

/-- Witness for `dumpStats_hotLines_refine_full_sort`: the scenario state,
ranked by the selection partial sort and by the full insertion sort; its
non-zero miss counts 3 and 2 are distinct. -/
theorem dumpStats_hotLines_refine_full_sort_witness :
    ∃ rep st, dumpStats sampleEnv true 1000000000 scenarioStats =
        some { log := some rep, stats := st } ∧
      rep.hotLines.map HotLine.numMisses =
        ((fullSortRanking scenarioStats (fullSort scenarioStats)).map
          (hotLine sampleEnv scenarioStats)).map HotLine.numMisses ∧
      rep.hotLines.length = (fullSortRanking scenarioStats (fullSort scenarioStats)).length ∧
      rep.hotLines =
        (fullSortRanking scenarioStats (fullSort scenarioStats)).map
          (hotLine sampleEnv scenarioStats) := by
  obtain ⟨rep, st, h1, h2, h3, h4⟩ :=
    dumpStats_hotLines_refine_full_sort sampleEnv 1000000000 scenarioStats
      (fullSort scenarioStats) (by decide) (by decide) (by decide) (by decide)
  refine ⟨rep, st, h1, h2, h3, h4 ?_⟩
  intro i j hi hj
  have hi12 : i < 12 := hi
  have hj12 : j < 12 := hj
  interval_cases i <;> interval_cases j <;> decide

/-! ## The reporting gate -/

/-- C9: with the reporting flag off, or with fewer ticks than one interval
elapsed since `stats.timestamp`, `dumpStats` returns the state it was given
(all four counters, the histogram and the timestamp) and logs nothing. -/
theorem dumpStats_gate_closed (E : Env) (flag : Bool) (now : Int) (stats : FlashStats)
    (h : flag = false ∨ now - stats.timestamp < E.sTicks1) :
    ∃ r, dumpStats E flag now stats = some r ∧
      r.log = none ∧
      r.stats = stats ∧
      r.stats.periodic.blockTotal = stats.periodic.blockTotal ∧
      r.stats.periodic.blockHitSame = stats.periodic.blockHitSame ∧
      r.stats.periodic.blockHitOther = stats.periodic.blockHitOther ∧
      r.stats.periodic.blockMiss = stats.periodic.blockMiss ∧
      r.stats.periodic.blockMissCounts = stats.periodic.blockMissCounts ∧
      r.stats.timestamp = stats.timestamp :=
  ⟨_, dumpStats_silent E flag now stats h, rfl, rfl, rfl, rfl, rfl, rfl, rfl, rfl⟩

/-- Witness for `dumpStats_gate_closed`: the scenario state with the flag on,
one tick before the interval has elapsed. -/
theorem dumpStats_gate_closed_witness :
    ∃ r, dumpStats sampleEnv true 999999999 scenarioStats = some r ∧
      r.log = none ∧
      r.stats = scenarioStats ∧
      r.stats.periodic.blockTotal = scenarioStats.periodic.blockTotal ∧
      r.stats.periodic.blockHitSame = scenarioStats.periodic.blockHitSame ∧
      r.stats.periodic.blockHitOther = scenarioStats.periodic.blockHitOther ∧
      r.stats.periodic.blockMiss = scenarioStats.periodic.blockMiss ∧
      r.stats.periodic.blockMissCounts = scenarioStats.periodic.blockMissCounts ∧
      r.stats.timestamp = scenarioStats.timestamp :=
  dumpStats_gate_closed sampleEnv true 999999999 scenarioStats (Or.inr (by decide))

/-- C10: on a histogram of at least ten slots `dumpStats` returns, and it logs
a report exactly when the flag is on and `now - stats.timestamp` is at least
one interval; whenever it logs, the state it returns has the four interval
counters and every histogram entry at 0 and `timestamp` equal to `now`. -/
theorem dumpStats_fires_iff (E : Env) (flag : Bool) (now : Int) (stats : FlashStats)
    (hN : numHotBlocks ≤ stats.periodic.blockMissCounts.length) :
    ∃ r, dumpStats E flag now stats = some r ∧
      (r.log ≠ none ↔ flag = true ∧ E.sTicks1 ≤ now - stats.timestamp) ∧
      (r.log ≠ none →
        r.stats.periodic.blockTotal = 0 ∧
        r.stats.periodic.blockHitSame = 0 ∧
        r.stats.periodic.blockHitOther = 0 ∧
        r.stats.periodic.blockMiss = 0 ∧
        r.stats.periodic.blockMissCounts.length = stats.periodic.blockMissCounts.length ∧
        (∀ x ∈ r.stats.periodic.blockMissCounts, x = 0) ∧
        r.stats.timestamp = now) := by
  by_cases hg : flag = false ∨ now - stats.timestamp < E.sTicks1
  · refine ⟨_, dumpStats_silent E flag now stats hg, ?_, ?_⟩
    · constructor
      · intro h
        exact absurd rfl h
      · rintro ⟨hf, ht⟩
        rcases hg with hg | hg
        · rw [hf] at hg
          exact absurd hg (by decide)
        · omega
    · intro h
      exact absurd rfl h
  · push_neg at hg
    obtain ⟨hf, ht⟩ := hg
    have hf' : flag = true := by cases flag <;> simp_all
    subst hf'
    refine ⟨_, dumpStats_fires E now stats ht hN, ?_, ?_⟩
    · constructor
      · intro _
        exact ⟨rfl, ht⟩
      · intro _
        simp
    · intro _
      refine ⟨rfl, rfl, rfl, rfl, ?_, ?_, rfl⟩
      · simp [resetStats]
      · intro x hx
        simp only [resetStats] at hx
        exact List.eq_of_mem_replicate hx

/-- Witness for `dumpStats_fires_iff`: the scenario state with the flag on,
exactly one interval after the last report. -/
theorem dumpStats_fires_iff_witness :
    ∃ r, dumpStats sampleEnv true 1000000000 scenarioStats = some r ∧
      (r.log ≠ none ↔ true = true ∧ sampleEnv.sTicks1 ≤ 1000000000 - scenarioStats.timestamp) ∧
      (r.log ≠ none →
        r.stats.periodic.blockTotal = 0 ∧
        r.stats.periodic.blockHitSame = 0 ∧
        r.stats.periodic.blockHitOther = 0 ∧
        r.stats.periodic.blockMiss = 0 ∧
        r.stats.periodic.blockMissCounts.length = scenarioStats.periodic.blockMissCounts.length ∧
        (∀ x ∈ r.stats.periodic.blockMissCounts, x = 0) ∧
        r.stats.timestamp = 1000000000) :=
  dumpStats_fires_iff sampleEnv true 1000000000 scenarioStats (by decide)

/-! ## Repeated reporting -/

section Helpers

lemma dumpStats_silent_of_timestamp (E : Env) (t now : Int) (stats : FlashStats)
    (hts : stats.timestamp = t) (hlt : now < t + E.sTicks1) :
    dumpStats E true now stats = some { log := none, stats := stats } :=
  dumpStats_silent E true now stats (Or.inr (by rw [hts]; omega))

lemma dumpStatsRepeat_silent (E : Env) (now : Int) (stats : FlashStats)
    (h : now - stats.timestamp < E.sTicks1) :
    ∀ n, dumpStatsRepeat E true now n stats = some ([], stats)
  | 0 => rfl
  | n + 1 => by
    simp only [dumpStatsRepeat, dumpStats_silent E true now stats (Or.inr h),
      dumpStatsRepeat_silent E now stats h n]
    rfl

end Helpers

/-- C11: with the flag on, a positive interval and a histogram of at least ten
slots, any number of calls of `dumpStats` at the same `now` logs at most one
report; when an interval has elapsed the first call logs, resets the counters
and sets the timestamp, and every later call at that `now` logs nothing and
returns the state unchanged; and in any state whose timestamp is the tick `t`
of a firing, no call at a tick `t'` with `t ≤ t' < t + interval` logs. -/
theorem dumpStats_fires_once (E : Env) (now : Int) (stats : FlashStats)
    (hpos : 0 < E.sTicks1)
    (hN : numHotBlocks ≤ stats.periodic.blockMissCounts.length) :
    (∀ n, ∃ logs st, dumpStatsRepeat E true now n stats = some (logs, st) ∧
      logs.length ≤ 1 ∧
      (E.sTicks1 ≤ now - stats.timestamp → 0 < n →
        logs.length = 1 ∧ st = { resetStats stats with timestamp := now }) ∧
      (now - stats.timestamp < E.sTicks1 → logs = [] ∧ st = stats)) ∧
    (E.sTicks1 ≤ now - stats.timestamp →
      ∃ r, dumpStats E true now stats = some r ∧ r.log ≠ none ∧
        r.stats.periodic.blockTotal = 0 ∧ r.stats.periodic.blockHitSame = 0 ∧
        r.stats.periodic.blockHitOther = 0 ∧ r.stats.periodic.blockMiss = 0 ∧
        (∀ x ∈ r.stats.periodic.blockMissCounts, x = 0) ∧
        r.stats.timestamp = now ∧
        (∀ n, dumpStatsRepeat E true now n r.stats = some ([], r.stats)) ∧
        dumpStats E true now r.stats = some { log := none, stats := r.stats } ∧
        ∀ (t' : Int) (later : FlashStats), later.timestamp = r.stats.timestamp →
          now ≤ t' → t' < now + E.sTicks1 →
          dumpStats E true t' later = some { log := none, stats := later }) := by
  have hafter : ∀ n, dumpStatsRepeat E true now n { resetStats stats with timestamp := now } =
      some ([], { resetStats stats with timestamp := now }) :=
    dumpStatsRepeat_silent E now _ (by simpa using hpos)
  constructor
  · intro n
    by_cases ht : E.sTicks1 ≤ now - stats.timestamp
    · cases n with
      | zero =>
        exact ⟨[], stats, rfl, by simp, fun _ h => absurd h (lt_irrefl 0), fun h => by omega⟩
      | succ n =>
        refine ⟨[{ summary := summaryLine E stats (now - stats.timestamp)
                   hotLines := (hotBlockList E stats).map (hotLine E stats) }],
          { resetStats stats with timestamp := now }, ?_, le_refl 1,
          fun _ _ => ⟨rfl, rfl⟩, fun h => by omega⟩
        simp only [dumpStatsRepeat, dumpStats_fires E now stats ht hN, hafter n]
        rfl
    · have hlt : now - stats.timestamp < E.sTicks1 := not_le.mp ht
      exact ⟨[], stats, dumpStatsRepeat_silent E now stats hlt n, by simp,
        fun h => absurd h ht, fun _ => ⟨rfl, rfl⟩⟩
  · intro ht
    refine ⟨_, dumpStats_fires E now stats ht hN, by simp, rfl, rfl, rfl, rfl, ?_, rfl,
      hafter, ?_, ?_⟩
    · intro x hx
      simp only [resetStats] at hx
      exact List.eq_of_mem_replicate hx
    · exact dumpStats_silent_of_timestamp E now now _ rfl (by omega)
    · intro t' later hts _ hlt
      exact dumpStats_silent_of_timestamp E now t' later hts hlt

/-- Witness for `dumpStats_fires_once`: the scenario state, one second after
the last report. -/
theorem dumpStats_fires_once_witness :
    (∀ n, ∃ logs st, dumpStatsRepeat sampleEnv true 1000000000 n scenarioStats =
        some (logs, st) ∧ logs.length ≤ 1) ∧
    (∃ r, dumpStats sampleEnv true 1000000000 scenarioStats = some r ∧ r.log ≠ none ∧
      dumpStats sampleEnv true 1000000000 r.stats = some { log := none, stats := r.stats }) := by
  have h := dumpStats_fires_once sampleEnv 1000000000 scenarioStats (by decide) (by decide)
  refine ⟨fun n => ?_, ?_⟩
  · obtain ⟨logs, st, h1, h2, _⟩ := h.1 n
    exact ⟨logs, st, h1, h2⟩
  · obtain ⟨r, h1, h2, _, _, _, _, _, _, _, h3, _⟩ := h.2 (by decide)
    exact ⟨r, h1, h2, h3⟩

/-! ## Monotonicity and the bounds assertion -/

section Helpers

lemma countBlockMiss_assertFailed (E : Env) (stats : FlashStats) (blockAddr : Nat)
    (h : ¬ blockAddr / E.BLOCK_SIZE < stats.periodic.blockMissCounts.length) :
    countBlockMiss E stats blockAddr =
      Checked.assertFailed
        { timestamp := stats.timestamp
          periodic :=
            { blockTotal := stats.periodic.blockTotal
              blockHitSame := stats.periodic.blockHitSame
              blockHitOther := stats.periodic.blockHitOther
              blockMiss := u32 (stats.periodic.blockMiss + 1)
              blockMissCounts := stats.periodic.blockMissCounts } } := by
  simp [countBlockMiss, h]

end Helpers

/-- C12 (as stated, refuted): from a state whose `blockMiss` and whose entry
for block 0 are `2 ^ 32 - 1`, a miss at the in-range address 0 leaves both at
0, below their values before. -/
theorem countBlockMiss_decreases_example :
    ∃ s, countBlockMiss sampleEnv
        { timestamp := 0
          periodic :=
            { blockTotal := 4294967295, blockHitSame := 0, blockHitOther := 0
              blockMiss := 4294967295, blockMissCounts := [4294967295, 0] } } 0
          = Checked.ok s ∧
      s.periodic.blockMiss < 4294967295 ∧
      s.periodic.blockMissCounts.getD 0 0 < 4294967295 ∧
      s.periodic.blockMiss = 0 ∧ s.periodic.blockMissCounts.getD 0 0 = 0 := by
  refine ⟨_, rfl, by decide, by decide, by decide, by decide⟩

/-- C12 (amended): for an in-range address, `countBlockMiss` leaves
`blockTotal`, `blockHitSame`, `blockHitOther` and every histogram entry other
than the one of the address's block as they were; `blockMiss` does not decrease
when it is below `2 ^ 32 - 1` before the call, and no histogram entry decreases
when the entry of the address's block is below `2 ^ 32 - 1` before the call. -/
theorem countBlockMiss_monotone (E : Env) (stats : FlashStats) (a : Nat)
    (ha : a / E.BLOCK_SIZE < stats.periodic.blockMissCounts.length) :
    ∃ s, countBlockMiss E stats a = Checked.ok s ∧
      s.periodic.blockTotal = stats.periodic.blockTotal ∧
      s.periodic.blockHitSame = stats.periodic.blockHitSame ∧
      s.periodic.blockHitOther = stats.periodic.blockHitOther ∧
      (stats.periodic.blockMiss + 1 < 2 ^ 32 →
        stats.periodic.blockMiss ≤ s.periodic.blockMiss) ∧
      (∀ i, i ≠ a / E.BLOCK_SIZE →
        s.periodic.blockMissCounts.getD i 0 = stats.periodic.blockMissCounts.getD i 0) ∧
      (stats.periodic.blockMissCounts.getD (a / E.BLOCK_SIZE) 0 + 1 < 2 ^ 32 →
        ∀ i, stats.periodic.blockMissCounts.getD i 0 ≤ s.periodic.blockMissCounts.getD i 0) := by
  refine ⟨_, countBlockMiss_ok E stats a ha, rfl, rfl, rfl, ?_, ?_, ?_⟩
  · intro hlt
    show stats.periodic.blockMiss ≤ u32 (stats.periodic.blockMiss + 1)
    rw [u32_of_lt hlt]
    omega
  · intro i hi
    simp [getD_set, Ne.symm hi]
  · intro hlt i
    simp only [getD_set]
    split_ifs with h
    · rw [u32_of_lt hlt, ← h.1]
      omega
    · exact le_refl _

/-- Witness for `countBlockMiss_monotone`: a miss at address 130 (block 2) in
the scenario state. -/
theorem countBlockMiss_monotone_witness :
    ∃ s, countBlockMiss sampleEnv scenarioStats 130 = Checked.ok s ∧
      s.periodic.blockTotal = scenarioStats.periodic.blockTotal ∧
      s.periodic.blockHitSame = scenarioStats.periodic.blockHitSame ∧
      s.periodic.blockHitOther = scenarioStats.periodic.blockHitOther ∧
      scenarioStats.periodic.blockMiss ≤ s.periodic.blockMiss ∧
      (∀ i, scenarioStats.periodic.blockMissCounts.getD i 0 ≤
        s.periodic.blockMissCounts.getD i 0) := by
  obtain ⟨s, h1, h2, h3, h4, h5, _, h7⟩ :=
    countBlockMiss_monotone sampleEnv scenarioStats 130 (by decide)
  exact ⟨s, h1, h2, h3, h4, h5 (by decide), h7 (by decide)⟩

/-- C13: `countBlockMiss` trips its bounds assertion exactly when the block
number `a / BLOCK_SIZE` is not below the histogram capacity; below the
capacity it runs to its end, and when the assertion trips the histogram is the
one it was given. -/
theorem countBlockMiss_assert_iff (E : Env) (stats : FlashStats) (a : Nat) :
    ((∃ s, countBlockMiss E stats a = Checked.assertFailed s) ↔
      ¬ a / E.BLOCK_SIZE < stats.periodic.blockMissCounts.length) ∧
    (a / E.BLOCK_SIZE < stats.periodic.blockMissCounts.length →
      ∃ s, countBlockMiss E stats a = Checked.ok s) ∧
    (¬ a / E.BLOCK_SIZE < stats.periodic.blockMissCounts.length →
      ∃ s, countBlockMiss E stats a = Checked.assertFailed s ∧
        s.periodic.blockMissCounts = stats.periodic.blockMissCounts) := by
  refine ⟨⟨?_, ?_⟩, ?_, ?_⟩
  · rintro ⟨s, hs⟩ hlt
    rw [countBlockMiss_ok E stats a hlt] at hs
    cases hs
  · intro h
    exact ⟨_, countBlockMiss_assertFailed E stats a h⟩
  · intro h
    exact ⟨_, countBlockMiss_ok E stats a h⟩
  · intro h
    exact ⟨_, countBlockMiss_assertFailed E stats a h, rfl⟩

/-- Witness for `countBlockMiss_assert_iff`: in the scenario state, with twelve
slots of 64 bytes, address 768 is the first one out of range. -/
theorem countBlockMiss_assert_iff_witness :
    (∃ s, countBlockMiss sampleEnv scenarioStats 767 = Checked.ok s) ∧
    (∃ s, countBlockMiss sampleEnv scenarioStats 768 = Checked.assertFailed s ∧
        s.periodic.blockMissCounts = scenarioStats.periodic.blockMissCounts) :=
  ⟨(countBlockMiss_assert_iff sampleEnv scenarioStats 767).2.1 (by decide),
    (countBlockMiss_assert_iff sampleEnv scenarioStats 768).2.2 (by decide)⟩

/-! ## Verification against the flash image -/

section Helpers

lemma FlashDevice.verify_bytes (flash : Nat → Nat) (address : Nat) (buf : List Nat) (len : Nat) :
    FlashDevice.verify flash address buf len = true ↔
      ∀ i, i < len → buf[i]? = some (flash (address + i)) := by
  simp [FlashDevice.verify, List.all_eq_true]

end Helpers

/-- C14: against a device check that compares byte for byte,
`FlashBlock::verify` passes exactly when each of the `BLOCK_SIZE` bytes of the
block's data equals the flash byte at `address + i`; and once a block that
passes has the byte at any offset below `BLOCK_SIZE` replaced by a different
value, it no longer passes. -/
theorem verify_iff (E : Env) (flash : Nat → Nat) (block : Block) :
    (verify E flash block = true ↔
      ∀ i, i < E.BLOCK_SIZE → block.getData[i]? = some (flash (block.address + i))) ∧
    (verify E flash block = true → ∀ j v, j < E.BLOCK_SIZE → v ≠ block.getData.getD j 0 →
      verify E flash { block with getData := block.getData.set j v } = false) := by
  have key : ∀ b : Block, verify E flash b = true ↔
      ∀ i, i < E.BLOCK_SIZE → b.getData[i]? = some (flash (b.address + i)) :=
    fun b => FlashDevice.verify_bytes flash b.address b.getData E.BLOCK_SIZE
  refine ⟨key block, ?_⟩
  intro hpass j v hj hv
  have hold := (key block).mp hpass j hj
  cases hnew : verify E flash { block with getData := block.getData.set j v }
  · rfl
  · exfalso
    have h2 := (key _).mp hnew j hj
    simp only [List.getElem?_set] at h2
    have hlen : j < block.getData.length := by
      by_contra hnot
      rw [List.getElem?_eq_none (not_lt.mp hnot)] at hold
      cases hold
    simp only [hlen, if_true] at h2
    apply hv
    rw [List.getD_eq_getElem?_getD, hold]
    simpa using h2

/-- Witness for `verify_iff`: the sample block passes, and with the byte at
offset 5 replaced by 0 (it was 133) it does not. -/
theorem verify_iff_witness :
    verify sampleEnv sampleFlash sampleBlock = true ∧
    verify sampleEnv sampleFlash
      { sampleBlock with getData := sampleBlock.getData.set 5 0 } = false :=
  ⟨by decide,
    (verify_iff sampleEnv sampleFlash sampleBlock).2 (by decide) 5 0 (by decide) (by decide)⟩

/-! ## The summary line -/

section Helpers

lemma summaryLine_busUtilization (E : Env) (stats : FlashStats) (tickDiff : Int) :
    (summaryLine E stats tickDiff).busUtilization =
      (((stats.periodic.blockMiss * E.BLOCK_SIZE) % 2 ^ 32 : Nat) : ℚ) * (10 / 1000000) /
        ((tickDiff : ℚ) / (E.sTicks1 : ℚ)) / 18 * 100 := by
  simp only [summaryLine, u32]
  ring

end Helpers

/-- C15 (as stated, refuted): with `2 ^ 26` misses on blocks of 64 bytes, one
second after the last report, the logged bus utilisation is 0, not the value
given by the true byte count `2 ^ 26 * 64`. -/
theorem busUtilization_wraps_example :
    ∃ rep st, dumpStats sampleEnv true 1000000000 overflowStats =
        some { log := some rep, stats := st } ∧
      rep.summary.busUtilization = 0 ∧
      rep.summary.busUtilization ≠
        ((67108864 : ℚ) * 64) * (10 / 1000000) / ((1000000000 : ℚ) / 1000000000) / 18 * 100 := by
  have h0 : (summaryLine sampleEnv overflowStats (1000000000 - overflowStats.timestamp)).busUtilization
      = 0 := by
    rw [summaryLine_busUtilization]
    have : (overflowStats.periodic.blockMiss * sampleEnv.BLOCK_SIZE) % 2 ^ 32 = 0 := by decide
    rw [this]
    simp
  refine ⟨_, _, dumpStats_fires sampleEnv 1000000000 overflowStats (by decide) (by decide), h0, ?_⟩
  show (summaryLine sampleEnv overflowStats (1000000000 - overflowStats.timestamp)).busUtilization ≠ _
  rw [h0]
  norm_num

/-- C15 (amended): in exact arithmetic, the bus utilisation logged by a firing
`dumpStats` is the byte count `blockMiss * BLOCK_SIZE` reduced modulo `2 ^ 32`,
converted to megabits (times `10 / 1000000`), divided by `dt` and by 18, times
100, with `dt` the elapsed ticks divided by the ticks per second; it is the
value for the true product whenever `blockMiss * BLOCK_SIZE < 2 ^ 32`; and the
four rates are `blockTotal`, `blockHitSame`, `blockHitOther` and `blockMiss`
divided by `dt`. -/
theorem dumpStats_summary (E : Env) (now : Int) (stats : FlashStats)
    (ht : E.sTicks1 ≤ now - stats.timestamp)
    (hN : numHotBlocks ≤ stats.periodic.blockMissCounts.length) :
    ∃ rep st, dumpStats E true now stats = some { log := some rep, stats := st } ∧
      rep.summary.busUtilization =
        (((stats.periodic.blockMiss * E.BLOCK_SIZE) % 2 ^ 32 : Nat) : ℚ) * (10 / 1000000) /
          (((now - stats.timestamp : Int) : ℚ) / (E.sTicks1 : ℚ)) / 18 * 100 ∧
      (stats.periodic.blockMiss * E.BLOCK_SIZE < 2 ^ 32 →
        rep.summary.busUtilization =
          ((stats.periodic.blockMiss : ℚ) * (E.BLOCK_SIZE : ℚ)) * (10 / 1000000) /
            (((now - stats.timestamp : Int) : ℚ) / (E.sTicks1 : ℚ)) / 18 * 100) ∧
      rep.summary.accPerSec =
        (stats.periodic.blockTotal : ℚ) /
          (((now - stats.timestamp : Int) : ℚ) / (E.sTicks1 : ℚ)) ∧
      rep.summary.samePerSec =
        (stats.periodic.blockHitSame : ℚ) /
          (((now - stats.timestamp : Int) : ℚ) / (E.sTicks1 : ℚ)) ∧
      rep.summary.cachedPerSec =
        (stats.periodic.blockHitOther : ℚ) /
          (((now - stats.timestamp : Int) : ℚ) / (E.sTicks1 : ℚ)) ∧
      rep.summary.missPerSec =
        (stats.periodic.blockMiss : ℚ) /
          (((now - stats.timestamp : Int) : ℚ) / (E.sTicks1 : ℚ)) := by
  refine ⟨_, _, dumpStats_fires E now stats ht hN,
    summaryLine_busUtilization E stats _, ?_, rfl, rfl, rfl, rfl⟩
  intro hlt
  show (summaryLine E stats (now - stats.timestamp)).busUtilization = _
  rw [summaryLine_busUtilization, Nat.mod_eq_of_lt hlt]
  push_cast
  rfl

/-- Witness for `dumpStats_summary`: the scenario state (5 misses of 64 bytes),
two seconds after the last report: 2/225 per cent, 2.5 misses per second. -/
theorem dumpStats_summary_witness :
    ∃ rep st, dumpStats sampleEnv true 2000000000 scenarioStats =
        some { log := some rep, stats := st } ∧
      rep.summary.busUtilization = 2 / 225 ∧
      rep.summary.missPerSec = 5 / 2 := by
  obtain ⟨rep, st, h1, _, h3, _, _, _, h7⟩ :=
    dumpStats_summary sampleEnv 2000000000 scenarioStats (by decide) (by decide)
  refine ⟨rep, st, h1, ?_, ?_⟩
  · rw [h3 (by decide)]
    simp only [scenarioStats, sampleEnv]
    norm_num
  · rw [h7]
    simp only [scenarioStats, sampleEnv]
    norm_num

/-! ## The histogram total -/

section Helpers

lemma getD_le_sum : ∀ (l : List Nat) (i : Nat), l.getD i 0 ≤ l.sum
  | [], i => by simp
  | x :: xs, 0 => by simp
  | x :: xs, i + 1 => by
    have := getD_le_sum xs i
    simp only [List.getD_cons_succ, List.sum_cons]
    omega

lemma sum_set : ∀ (l : List Nat) (i v : Nat), i < l.length →
    (l.set i v).sum + l.getD i 0 = l.sum + v
  | [], i, v, h => by simp at h
  | x :: xs, 0, v, _ => by
    simp only [List.set_cons_zero, List.sum_cons, List.getD_cons_zero]
    omega
  | x :: xs, i + 1, v, h => by
    have := sum_set xs i v (by simpa using h)
    simp only [List.set_cons_succ, List.sum_cons, List.getD_cons_succ]
    omega

/-- From a state whose miss counter and histogram total are both `m`, a run of
in-range misses that keeps the count below `2 ^ 32` ends with both at
`m + addrs.length`. -/
lemma countBlockMissSeq_sum (E : Env) :
    ∀ (addrs : List Nat) (stats : FlashStats) (m : Nat),
      stats.periodic.blockMiss = m → stats.periodic.blockMissCounts.sum = m →
      m + addrs.length < 2 ^ 32 →
      (∀ a ∈ addrs, a / E.BLOCK_SIZE < stats.periodic.blockMissCounts.length) →
      ∃ s, countBlockMissSeq E stats addrs = Checked.ok s ∧
        s.periodic.blockMissCounts.sum = s.periodic.blockMiss ∧
        s.periodic.blockMiss = m + addrs.length ∧
        s.periodic.blockMissCounts.length = stats.periodic.blockMissCounts.length
  | [], stats, m, hm, hs, _, _ => ⟨stats, rfl, by rw [hs, hm], by simpa using hm, rfl⟩
  | a :: rest, stats, m, hm, hs, hlt, hin => by
    have ha : a / E.BLOCK_SIZE < stats.periodic.blockMissCounts.length :=
      hin a (List.mem_cons_self _ _)
    have hlen : (a :: rest).length = rest.length + 1 := rfl
    rw [hlen] at hlt
    have hentry := getD_le_sum stats.periodic.blockMissCounts (a / E.BLOCK_SIZE)
    have h1 : u32 (stats.periodic.blockMiss + 1) = m + 1 := by
      rw [hm]
      exact u32_of_lt (by omega)
    have h2 : u32 (stats.periodic.blockMissCounts.getD (a / E.BLOCK_SIZE) 0 + 1) =
        stats.periodic.blockMissCounts.getD (a / E.BLOCK_SIZE) 0 + 1 :=
      u32_of_lt (by omega)
    have hstep := countBlockMiss_ok E stats a ha
    rw [h1, h2] at hstep
    have hsum := sum_set stats.periodic.blockMissCounts (a / E.BLOCK_SIZE)
      (stats.periodic.blockMissCounts.getD (a / E.BLOCK_SIZE) 0 + 1) ha
    obtain ⟨s, hs1, hs2, hs3, hs4⟩ := countBlockMissSeq_sum E rest
      { timestamp := stats.timestamp
        periodic :=
          { blockTotal := stats.periodic.blockTotal
            blockHitSame := stats.periodic.blockHitSame
            blockHitOther := stats.periodic.blockHitOther
            blockMiss := m + 1
            blockMissCounts :=
              stats.periodic.blockMissCounts.set (a / E.BLOCK_SIZE)
                (stats.periodic.blockMissCounts.getD (a / E.BLOCK_SIZE) 0 + 1) } }
      (m + 1) rfl
      (show (stats.periodic.blockMissCounts.set (a / E.BLOCK_SIZE)
        (stats.periodic.blockMissCounts.getD (a / E.BLOCK_SIZE) 0 + 1)).sum = m + 1 by omega)
      (by omega)
      (fun b hb => by
        show b / E.BLOCK_SIZE < (stats.periodic.blockMissCounts.set _ _).length
        rw [List.length_set]
        exact hin b (List.mem_cons_of_mem _ hb))
    refine ⟨s, ?_, hs2, ?_, ?_⟩
    · simp only [countBlockMissSeq, hstep]
      exact hs1
    · rw [hs3, hlen]
      omega
    · rw [hs4]
      exact List.length_set _ _ _

end Helpers

/-- C16: starting from a reset state, after any sequence of fewer than `2 ^ 32`
in-range calls of `countBlockMiss` (every call runs to its end) the sum of all
histogram entries equals `blockMiss`, and both equal the number of calls. -/
theorem histogram_sum_eq_blockMiss (E : Env) (stats : FlashStats) (addrs : List Nat)
    (hin : ∀ a ∈ addrs, a / E.BLOCK_SIZE < stats.periodic.blockMissCounts.length)
    (hlen : addrs.length < 2 ^ 32) :
    ∃ s, countBlockMissSeq E (resetStats stats) addrs = Checked.ok s ∧
      s.periodic.blockMissCounts.sum = s.periodic.blockMiss ∧
      s.periodic.blockMiss = addrs.length := by
  obtain ⟨s, h1, h2, h3, _⟩ := countBlockMissSeq_sum E addrs (resetStats stats) 0 rfl
    (by simp [resetStats]) (by omega)
    (fun a ha => by
      have := hin a ha
      simpa [resetStats] using this)
  exact ⟨s, h1, h2, by omega⟩

/-- Witness for `histogram_sum_eq_blockMiss`: the five misses of the scenario,
three in block 2 and two in block 0. -/
theorem histogram_sum_eq_blockMiss_witness :
    ∃ s, countBlockMissSeq sampleEnv (resetStats scenarioStats) [128, 0, 130, 63, 191]
        = Checked.ok s ∧
      s.periodic.blockMissCounts.sum = s.periodic.blockMiss ∧
      s.periodic.blockMiss = [128, 0, 130, 63, 191].length :=
  histogram_sum_eq_blockMiss sampleEnv scenarioStats [128, 0, 130, 63, 191]
    (by decide) (by decide)

/-! ## The comparator and the safety of the hot-block loop -/

/-- C17: for every histogram, `hotBlockSort i j` holds exactly when the miss
count of `j` is below that of `i`, and it is a strict weak ordering on block
numbers: irreflexive, asymmetric and transitive, with incomparability (which is
equality of miss counts) transitive. -/
theorem hotBlockSort_strict_weak (stats : FlashStats) :
    (∀ i j, hotBlockSort stats i j = true ↔ missCount stats j < missCount stats i) ∧
    (∀ i, hotBlockSort stats i i = false) ∧
    (∀ i j, hotBlockSort stats i j = true → hotBlockSort stats j i = false) ∧
    (∀ i j k, hotBlockSort stats i j = true → hotBlockSort stats j k = true →
      hotBlockSort stats i k = true) ∧
    (∀ i j, (hotBlockSort stats i j = false ∧ hotBlockSort stats j i = false) ↔
      missCount stats i = missCount stats j) ∧
    (∀ i j k, hotBlockSort stats i j = false ∧ hotBlockSort stats j i = false →
      hotBlockSort stats j k = false ∧ hotBlockSort stats k j = false →
      hotBlockSort stats i k = false ∧ hotBlockSort stats k i = false) ∧
    StrictWeakOrdering (hotBlockSort stats) := by
  have hsw := hotBlockSort_strictWeakOrdering stats
  refine ⟨?_, hsw.irrefl, hsw.asymm, hsw.trans, ?_, hsw.incomp_trans, hsw⟩
  · intro i j
    simp [hotBlockSort]
  · intro i j
    simp only [hotBlockSort, decide_eq_false_iff_not]
    omega

/-- C18: when `dumpStats` fires on a histogram of capacity `N ≥ 10` with
`N * BLOCK_SIZE ≤ 2 ^ 32` and a positive block size (`std::partial_sort`
meeting its postcondition), each of the ten entries of the ranked vector the
loop can read exists and is a block number below `N`, the ranked vector is a
permutation of `0 .. N - 1`, the block numbers on the logged lines are pairwise
distinct and below `N`, and each logged address is `blockNum * BLOCK_SIZE`
without wrap-around, a multiple of `BLOCK_SIZE` that divides back to
`blockNum`. -/
theorem dumpStats_hot_loop_safe (E : Env) (now : Int) (stats : FlashStats)
    (ht : E.sTicks1 ≤ now - stats.timestamp)
    (hN : 10 ≤ stats.periodic.blockMissCounts.length)
    (hcap : stats.periodic.blockMissCounts.length * E.BLOCK_SIZE ≤ 2 ^ 32)
    (hpos : 0 < E.BLOCK_SIZE)
    (hsort : SortsHotBlocks E stats) :
    ∃ (rep : Report) (st : FlashStats) (blocks : List Nat),
      dumpStats E true now stats = some { log := some rep, stats := st } ∧
      rep.hotLines = blocks.map (hotLine E stats) ∧
      (∀ i, i < numHotBlocks → ∃ blockNum, (rankedBlocks E stats)[i]? = some blockNum ∧
        blockNum < stats.periodic.blockMissCounts.length) ∧
      (rankedBlocks E stats).Perm (List.range stats.periodic.blockMissCounts.length) ∧
      blocks.Nodup ∧
      (∀ b ∈ blocks, b < stats.periodic.blockMissCounts.length) ∧
      (∀ b ∈ blocks,
        (hotLine E stats b).blockAddr = b * E.BLOCK_SIZE ∧
        (hotLine E stats b).blockAddr < 2 ^ 32 ∧
        E.BLOCK_SIZE ∣ (hotLine E stats b).blockAddr ∧
        (hotLine E stats b).blockAddr / E.BLOCK_SIZE = b) ∧
      (rep.hotLines.map HotLine.blockAddr).Nodup := by
  have hlt : ∀ b ∈ hotBlockList E stats, b < stats.periodic.blockMissCounts.length :=
    fun b hb => (ranked_mem E stats hsort b).mp
      ((List.take_sublist _ _).subset ((hotBlockList_sublist E stats).subset hb))
  have hnd : (hotBlockList E stats).Nodup :=
    ((ranked_nodup E stats hsort).sublist (List.take_sublist _ _)).sublist
      (hotBlockList_sublist E stats)
  have haddr : ∀ b, b < stats.periodic.blockMissCounts.length →
      (hotLine E stats b).blockAddr = b * E.BLOCK_SIZE := by
    intro b hb
    show u32 (b * E.BLOCK_SIZE) = b * E.BLOCK_SIZE
    apply u32_of_lt
    have h1 : b * E.BLOCK_SIZE < stats.periodic.blockMissCounts.length * E.BLOCK_SIZE :=
      Nat.mul_lt_mul_of_pos_right hb hpos
    omega
  refine ⟨_, _, hotBlockList E stats, dumpStats_fires E now stats ht hN, rfl, ?_,
    hsort.1, hnd, hlt, ?_, ?_⟩
  · intro i hi
    have hi10 : i < 10 := hi
    have hlen : i < (rankedBlocks E stats).length := by
      rw [ranked_length E stats hsort]
      omega
    refine ⟨(rankedBlocks E stats)[i], List.getElem?_eq_getElem hlen, ?_⟩
    exact (ranked_mem E stats hsort _).mp (List.getElem_mem _)
  · intro b hb
    have hb1 := hlt b hb
    have h1 : b * E.BLOCK_SIZE < stats.periodic.blockMissCounts.length * E.BLOCK_SIZE :=
      Nat.mul_lt_mul_of_pos_right hb1 hpos
    rw [haddr b hb1]
    exact ⟨rfl, by omega, Dvd.intro_left b rfl, Nat.mul_div_cancel b hpos⟩
  · show (((hotBlockList E stats).map (hotLine E stats)).map HotLine.blockAddr).Nodup
    rw [List.map_map]
    apply List.Nodup.map_on _ hnd
    intro x hx y hy hxy
    simp only [Function.comp_apply] at hxy
    rw [haddr x (hlt x hx), haddr y (hlt y hy)] at hxy
    exact Nat.eq_of_mul_eq_mul_right hpos hxy

/-- Witness for `dumpStats_hot_loop_safe`: the scenario state (twelve slots of
64 bytes), one second after the last report. -/
theorem dumpStats_hot_loop_safe_witness :
    ∃ (rep : Report) (st : FlashStats) (blocks : List Nat),
      dumpStats sampleEnv true 1000000000 scenarioStats =
        some { log := some rep, stats := st } ∧
      rep.hotLines = blocks.map (hotLine sampleEnv scenarioStats) ∧
      blocks.Nodup ∧
      (∀ b ∈ blocks, b < scenarioStats.periodic.blockMissCounts.length) ∧
      (∀ b ∈ blocks,
        (hotLine sampleEnv scenarioStats b).blockAddr = b * sampleEnv.BLOCK_SIZE ∧
        (hotLine sampleEnv scenarioStats b).blockAddr < 2 ^ 32 ∧
        sampleEnv.BLOCK_SIZE ∣ (hotLine sampleEnv scenarioStats b).blockAddr ∧
        (hotLine sampleEnv scenarioStats b).blockAddr / sampleEnv.BLOCK_SIZE = b) := by
  obtain ⟨rep, st, blocks, h1, h2, _, _, h5, h6, h7, _⟩ :=
    dumpStats_hot_loop_safe sampleEnv 1000000000 scenarioStats
      (by decide) (by decide) (by decide) (by decide) (by decide)
  exact ⟨rep, st, blocks, h1, h2, h5, h6, h7⟩

end FlashBlock
